import Mathlib

/-!
Verification of the tile-descriptor codec (`wsd/TileDesc.hpp`).

The development shallowly embeds the two classes of the source, `TileDesc`
and `TileCombined` (the spec's TileDescriptor and TileBatch), together with
the protocol helper functions they call.  Wire strings are modelled as
`List Char`; C++ `int` fields become `Int`, `uint64_t` hash fields become
`Nat` (the code only stores, prints and parses them — no arithmetic), and
throwing constructors become `Except`-returning functions.
-/

deriving instance DecidableEq for Except

/-- Wire strings are lists of characters. -/
abbrev Str := List Char

/-- Coerce a Lean string literal to the wire-string representation. -/
def strL (s : String) : Str := s.data

/-- Error kinds raised by construction and parsing, following the spec's
naming: `invalidDescriptor` for scalar-invariant violations,
`cardinalityMismatch` for unequal parallel lists in a batch,
`malformedMessage` for a value that fails to parse as its expected type. -/
inductive Err where
  | invalidDescriptor
  | cardinalityMismatch
  | malformedMessage
deriving DecidableEq, Repr

/-! ### Decimal numerals

Modelled from the spec: the source prints integers with the C++ stream
insertion operator and reads them back with the `stringToInteger` /
`stringToUInt64` helpers of the protocol layer (not part of the fragment).
We model printing as plain decimal (with a leading minus sign for negative
values) and reading as strict decimal parsing. -/

/-- Least-significant-first decimal digits, with explicit fuel so the
definition is structural and kernel-reducible. -/
def digitsRevAux : Nat → Nat → List Nat
  | 0, _ => []
  | fuel + 1, n => if n = 0 then [] else n % 10 :: digitsRevAux fuel (n / 10)

/-- Least-significant-first decimal digits of a natural number. -/
def natDigitsRev (n : Nat) : List Nat := digitsRevAux n n

/-- Value of a least-significant-first digit list. -/
def digitsRevVal : List Nat → Nat
  | [] => 0
  | d :: ds => d + 10 * digitsRevVal ds

/-- Decimal rendering of a natural number, most significant digit first. -/
def natToChars (n : Nat) : Str :=
  if n = 0 then strL "0" else (natDigitsRev n).reverse.map Nat.digitChar

/-- Decimal rendering of a C++ `int` value. -/
def intStr (i : Int) : Str :=
  if i < 0 then '-' :: natToChars (-i).toNat else natToChars i.toNat

/-- Numeric value of a single decimal digit character. -/
def charVal (c : Char) : Option Nat :=
  if c.isDigit then some (c.toNat - 48) else none

/-- Fold a digit string into an accumulated value; fails on a non-digit. -/
def charsToNatAux : Nat → Str → Option Nat
  | acc, [] => some acc
  | acc, c :: rest =>
    match charVal c with
    | some d => charsToNatAux (acc * 10 + d) rest
    | none => none

/-- Modelled from the spec: the protocol helper reading an unsigned decimal
value out of a string (`stringToUInt64`), strict: nonempty, digits only. -/
def charsToNat? (s : Str) : Option Nat :=
  if s.isEmpty then none else charsToNatAux 0 s

/-- Modelled from the spec: the protocol helper reading a signed decimal
integer out of a string (`stringToInteger`): optional minus sign, then a
nonempty run of digits. -/
def parseInt? (s : Str) : Option Int :=
  match s with
  | [] => none
  | c :: rest =>
    if c = '-' then (charsToNat? rest).map (fun n => -(n : Int))
    else (charsToNat? (c :: rest)).map (fun n => (n : Int))

/-! ### Splitting, joining, trimming, tokenizing

Modelled from the spec: the external collaborators are "a tokenizer
splitting a raw message into tokens on whitespace" and a helper to "split
on comma trimming whitespace and ignoring empty fragments". -/

/-- Split a string at every occurrence of the character `c`.  Always
returns at least one (possibly empty) fragment. -/
def splitOnChar (c : Char) : Str → List Str
  | [] => [[]]
  | a :: rest =>
    match splitOnChar c rest with
    | [] => [[]]
    | t :: ts => if a = c then [] :: t :: ts else (a :: t) :: ts

/-- Join fragments inserting the separator strictly between elements. -/
def joinSep (c : Char) : List Str → Str
  | [] => []
  | [l] => l
  | l :: ls => l ++ c :: joinSep c ls

/-- Strip leading and trailing whitespace. -/
def trimWS (s : Str) : Str :=
  ((s.dropWhile Char.isWhitespace).reverse.dropWhile Char.isWhitespace).reverse

/-- Modelled from the spec: comma splitting with `TOK_IGNORE_EMPTY` and
`TOK_TRIM` — split on commas, trim whitespace, drop empty fragments. -/
def commaSplit (s : Str) : List Str :=
  ((splitOnChar ',' s).map trimWS).filter (fun t => !t.isEmpty)

/-- Modelled from the spec: the protocol tokenizer splitting a message
into tokens on (space) whitespace, ignoring empty fragments. -/
def tokenize (s : Str) : List Str :=
  (splitOnChar ' ' s).filter (fun t => !t.isEmpty)

/-! ### name=value tokens

Modelled from the spec: helpers that "extract named integer/uint64 from a
token".  A token is split at its first `=` into a name and a value. -/

/-- Split a token at its first `=` character. -/
def parseNameValuePair : Str → Option (Str × Str)
  | [] => none
  | c :: rest =>
    if c = '=' then some ([], rest)
    else
      match parseNameValuePair rest with
      | some (n, v) => some (c :: n, v)
      | none => none

/-- Extract a `name=<integer>` pair from a token. -/
def parseNameIntegerPair (tok : Str) : Option (Str × Int) :=
  match parseNameValuePair tok with
  | some (n, v) => (parseInt? v).map (fun i => (n, i))
  | none => none

/-- Read the unsigned value of a token if its name matches `name`. -/
def getTokenUInt64Tok (tok name : Str) : Option Nat :=
  match parseNameValuePair tok with
  | some (n, v) => if n = name then charsToNat? v else none
  | none => none

/-- The string value of a token if its name matches `name`. -/
def tokenValue (name tok : Str) : Option Str :=
  match parseNameValuePair tok with
  | some (n, v) => if n = name then some v else none
  | none => none

/-- Find the string value of the first token named `name`. -/
def getTokenString (tokens : List Str) (name : Str) : Option Str :=
  tokens.findSome? (tokenValue name)

/-! ### TileDesc

Embedding of the `TileDesc` class (`wsd/TileDesc.hpp` lines 25–233). -/

/-- The fields of a `TileDesc`, in declaration order of the source. -/
structure TileDesc where
  part : Int
  width : Int
  height : Int
  tilePosX : Int
  tilePosY : Int
  tileWidth : Int
  tileHeight : Int
  ver : Int
  imgSize : Int
  id : Int
  broadcast : Bool
  oldHash : Nat
  hash : Nat
deriving DecidableEq, Repr

/-- The scalar invariants checked by the `TileDesc` constructor. -/
def TileDesc.Valid (d : TileDesc) : Prop :=
  0 ≤ d.part ∧ 0 < d.width ∧ 0 < d.height ∧ 0 ≤ d.tilePosX ∧ 0 ≤ d.tilePosY ∧
  0 < d.tileWidth ∧ 0 < d.tileHeight ∧ 0 ≤ d.imgSize

instance (d : TileDesc) : Decidable d.Valid := by
  unfold TileDesc.Valid
  infer_instance

/-- The `TileDesc` constructor: validates the scalar invariants and throws
`BadArgumentException` ("Invalid tile descriptor.") on violation; both
hashes start at 0. -/
def TileDesc.mk? (part width height tilePosX tilePosY tileWidth tileHeight ver imgSize id : Int)
    (broadcast : Bool) : Except Err TileDesc :=
  if part < 0 ∨ width ≤ 0 ∨ height ≤ 0 ∨ tilePosX < 0 ∨ tilePosY < 0 ∨
     tileWidth ≤ 0 ∨ tileHeight ≤ 0 ∨ imgSize < 0 then
    .error .invalidDescriptor
  else
    .ok ⟨part, width, height, tilePosX, tilePosY, tileWidth, tileHeight,
         ver, imgSize, id, broadcast, 0, 0⟩

/-- `operator==`: identity-field equality (`part, width, height, tilePosX,
tilePosY, tileWidth, tileHeight, id, broadcast`); version, image size and
hashes are excluded. -/
def TileDesc.eqId (a b : TileDesc) : Bool :=
  a.part = b.part ∧ a.width = b.width ∧ a.height = b.height ∧
  a.tilePosX = b.tilePosX ∧ a.tilePosY = b.tilePosY ∧
  a.tileWidth = b.tileWidth ∧ a.tileHeight = b.tileHeight ∧
  a.id = b.id ∧ a.broadcast = b.broadcast

/-- `intersectsWithRect`: inclusive axis-aligned overlap test against this
tile's box. -/
def TileDesc.intersectsWithRect (t : TileDesc) (x y w h : Int) : Bool :=
  x + w ≥ t.tilePosX ∧ x ≤ t.tilePosX + t.tileWidth ∧
  y + h ≥ t.tilePosY ∧ y ≤ t.tilePosY + t.tileHeight

/-- `intersects`: `intersectsWithRect` applied to the other tile's box. -/
def TileDesc.intersects (t other : TileDesc) : Bool :=
  t.intersectsWithRect other.tilePosX other.tilePosY other.tileWidth other.tileHeight

/-- `isAdjacent`: false unless the other tile shares `part, width, height,
tileWidth, tileHeight`; otherwise the intersection test. -/
def TileDesc.isAdjacent (t other : TileDesc) : Bool :=
  if other.part ≠ t.part ∨ other.width ≠ t.width ∨ other.height ≠ t.height ∨
     other.tileWidth ≠ t.tileWidth ∨ other.tileHeight ≠ t.tileHeight then
    false
  else
    t.intersects other

/-- `onSameRow`: same geometry prerequisite, vertical-extent overlap only. -/
def TileDesc.onSameRow (t other : TileDesc) : Bool :=
  if other.part ≠ t.part ∨ other.width ≠ t.width ∨ other.height ≠ t.height ∨
     other.tileWidth ≠ t.tileWidth ∨ other.tileHeight ≠ t.tileHeight then
    false
  else
    other.tilePosY + other.tileHeight ≥ t.tilePosY ∧
    other.tilePosY ≤ t.tilePosY + t.tileHeight

/-- `TileDesc::serialize`: the ordered `" key=value"` fields, with `id`,
`imgsize` and `broadcast` emitted conditionally, after an optional verbatim
prefix. -/
def TileDesc.serialize (d : TileDesc) (pfx : Str) : Str :=
  pfx ++ strL " part=" ++ intStr d.part
      ++ strL " width=" ++ intStr d.width
      ++ strL " height=" ++ intStr d.height
      ++ strL " tileposx=" ++ intStr d.tilePosX
      ++ strL " tileposy=" ++ intStr d.tilePosY
      ++ strL " tilewidth=" ++ intStr d.tileWidth
      ++ strL " tileheight=" ++ intStr d.tileHeight
      ++ strL " oldhash=" ++ natToChars d.oldHash
      ++ strL " hash=" ++ natToChars d.hash
      ++ strL " ver=" ++ intStr d.ver
      ++ (if d.id ≥ 0 then strL " id=" ++ intStr d.id else [])
      ++ (if d.imgSize > 0 then strL " imgsize=" ++ intStr d.imgSize else [])
      ++ (if d.broadcast then strL " broadcast=yes" else [])

/-- State of the token scan of `TileDesc::parse`: the `pairs` map (as an
association list where the first match wins, so insertion is prepending)
and the two specially-handled hashes. -/
structure DescParseSt where
  pairs : List (Str × Int)
  oldHash : Nat
  hash : Nat
deriving Repr

/-- Lookup in the `pairs` map; an absent key value-initializes to 0, as
`std::map::operator[]` does. -/
def lookupPairs (ps : List (Str × Int)) (n : Str) : Int :=
  match ps with
  | [] => 0
  | (k, v) :: rest => if k = n then v else lookupPairs rest n

/-- One iteration of the token loop of `TileDesc::parse`: try `oldhash`,
then `hash` (as uint64), else capture any `name=integer` pair; a token
matching none of these is skipped without error. -/
def descStep (st : DescParseSt) (tok : Str) : DescParseSt :=
  match getTokenUInt64Tok tok (strL "oldhash") with
  | some v => { st with oldHash := v }
  | none =>
    match getTokenUInt64Tok tok (strL "hash") with
    | some v => { st with hash := v }
    | none =>
      match parseNameIntegerPair tok with
      | some (n, v) => { st with pairs := (n, v) :: st.pairs }
      | none => st

/-- The initial `pairs` map with the optional-field defaults of the source:
`ver=-1, imgsize=0, id=-1`. -/
def descInitSt : DescParseSt :=
  ⟨[(strL "ver", -1), (strL "imgsize", 0), (strL "id", -1)], 0, 0⟩

/-- `TileDesc::parse` over a token list: scan the tokens, read `broadcast`,
construct (re-validating), then install the scanned hashes. -/
def TileDesc.parseTokens (tokens : List Str) : Except Err TileDesc :=
  let st := tokens.foldl descStep descInitSt
  let broadcast :=
    match getTokenString tokens (strL "broadcast") with
    | some s => s = strL "yes"
    | none => false
  (TileDesc.mk? (lookupPairs st.pairs (strL "part")) (lookupPairs st.pairs (strL "width"))
      (lookupPairs st.pairs (strL "height")) (lookupPairs st.pairs (strL "tileposx"))
      (lookupPairs st.pairs (strL "tileposy")) (lookupPairs st.pairs (strL "tilewidth"))
      (lookupPairs st.pairs (strL "tileheight")) (lookupPairs st.pairs (strL "ver"))
      (lookupPairs st.pairs (strL "imgsize")) (lookupPairs st.pairs (strL "id"))
      broadcast).map
    (fun d => { d with oldHash := st.oldHash, hash := st.hash })

/-- `TileDesc::parse` over a raw message string. -/
def TileDesc.parseMsg (message : Str) : Except Err TileDesc :=
  TileDesc.parseTokens (tokenize message)

/-! ### Concrete descriptors used in examples -/

/-- A 256x256 tile at the origin of a 1024x1024 canvas. -/
def tileA : TileDesc := ⟨0, 1024, 1024, 0, 0, 256, 256, -1, 0, -1, false, 0, 0⟩

/-- The same geometry shifted to `tilePosX = 256` (edge-touching). -/
def tileB256 : TileDesc := ⟨0, 1024, 1024, 256, 0, 256, 256, -1, 0, -1, false, 0, 0⟩

/-- The same geometry shifted to `tilePosX = 512` (separated). -/
def tileB512 : TileDesc := ⟨0, 1024, 1024, 512, 0, 256, 256, -1, 0, -1, false, 0, 0⟩

/-! ### Evaluation of `TileDesc::parse` on `TileDesc::serialize` output -/

/-- The token list produced by `TileDesc.serialize` with an empty prefix,
one entry per emitted `key=value` field. -/
def descTokens (d : TileDesc) : List Str :=
  [strL "part" ++ '=' :: intStr d.part,
   strL "width" ++ '=' :: intStr d.width,
   strL "height" ++ '=' :: intStr d.height,
   strL "tileposx" ++ '=' :: intStr d.tilePosX,
   strL "tileposy" ++ '=' :: intStr d.tilePosY,
   strL "tilewidth" ++ '=' :: intStr d.tileWidth,
   strL "tileheight" ++ '=' :: intStr d.tileHeight,
   strL "oldhash" ++ '=' :: natToChars d.oldHash,
   strL "hash" ++ '=' :: natToChars d.hash,
   strL "ver" ++ '=' :: intStr d.ver]
  ++ (if d.id ≥ 0 then [strL "id" ++ '=' :: intStr d.id] else [])
  ++ (if d.imgSize > 0 then [strL "imgsize" ++ '=' :: intStr d.imgSize] else [])
  ++ (if d.broadcast then [strL "broadcast" ++ '=' :: strL "yes"] else [])

/-- A valid descriptor with `id = -5`: the constructor does not constrain
`id`, `serialize` omits `id` when it is negative, and `parse` defaults an
absent `id` to `-1`. -/
def cDesc : TileDesc := ⟨0, 1, 1, 0, 0, 1, 1, -1, 0, -5, false, 0, 0⟩

/-- A descriptor exercising every optional field of the wire format. -/
def wDesc : TileDesc := ⟨5, 1024, 1024, 256, 0, 256, 256, 7, 2048, 3, true, 11, 22⟩

/-- The C3 counterexample token list: a well-formed single-tile request
plus one trailing token that is not `name=integer` and is none of the
specially-handled keys. -/
def c3Tokens : List Str :=
  [strL "part=0", strL "width=10", strL "height=10", strL "tileposx=0", strL "tileposy=0",
   strL "tilewidth=10", strL "tileheight=10", strL "garbage"]

/-! ### TileCombined

Embedding of the `TileCombined` class (`wsd/TileDesc.hpp` lines 238–504). -/

/-- An output string stream: a buffer plus a put position.  `write`
overwrites at the put position and extends the buffer; `seekBack1` is
`seekp(-1, cur)`; `out` is `str().substr(0, tellp())`. -/
structure OSS where
  buf : Str
  pos : Nat
deriving Repr

/-- Write `s` at the put position, overwriting existing characters. -/
def OSS.write (o : OSS) (s : Str) : OSS :=
  ⟨o.buf.take o.pos ++ s ++ o.buf.drop (o.pos + s.length), o.pos + s.length⟩

/-- `seekp(-1, cur)`: move the put position back one character. -/
def OSS.seekBack1 (o : OSS) : OSS := ⟨o.buf, o.pos - 1⟩

/-- `str().substr(0, tellp())`: the buffer up to the put position. -/
def OSS.out (o : OSS) : Str := o.buf.take o.pos

/-- The batch: an ordered tile sequence plus the shared scalars. -/
structure TileCombined where
  tiles : List TileDesc
  part : Int
  width : Int
  height : Int
  tileWidth : Int
  tileHeight : Int
  id : Int
deriving DecidableEq, Repr

/-- A list element parsed as an `int`, failing like `stringToInteger`. -/
def toIntE (s : Str) : Except Err Int :=
  match parseInt? s with
  | some v => .ok v
  | none => .error .malformedMessage

/-- A list element parsed as a `uint64`, failing like `stringToUInt64`. -/
def toNatE (s : Str) : Except Err Nat :=
  match charsToNat? s with
  | some v => .ok v
  | none => .error .malformedMessage

/-- The `imgsize` element read: consulted only while the list is nonempty
(mirroring `imgSizeTokens.count()`), defaulting to 0. -/
def optImgE (l : List Str) : Except Err Int :=
  if l.isEmpty then pure 0 else toIntE (l.headD [])

/-- The `ver` element read: `-1` when the list is absent or the element is
empty, mirroring `verTokens.count() && !verTokens[i].empty()`. -/
def optVerE (l : List Str) : Except Err Int :=
  if l.isEmpty then pure (-1)
  else if (l.headD []).isEmpty then pure (-1)
  else toIntE (l.headD [])

/-- An optional `uint64` element read, defaulting to 0. -/
def optNatE (l : List Str) : Except Err Nat :=
  if l.isEmpty then pure 0 else toNatE (l.headD [])

/-- The per-index tile-building loop of the private `TileCombined`
constructor, transcribed from the indexed `for` loop into parallel
structural recursion (the cardinality guard has already ensured the
position lists have equal length).  Per-tile defaults are `imgSize 0`,
`ver -1`, `oldHash 0`, `hash 0`; the constructed tile gets the batch id
and `broadcast=false`, then its hashes are installed. -/
def buildTiles (part width height tileWidth tileHeight id : Int) :
    List Str → List Str → List Str → List Str → List Str → List Str →
    Except Err (List TileDesc)
  | [], _, _, _, _, _ => .ok []
  | xTok :: xs, ys, imgs, vers, olds, hs => do
    let x ← toIntE xTok
    let y ← toIntE (ys.headD [])
    let imgSize ← optImgE imgs
    let ver ← optVerE vers
    let oldHash ← optNatE olds
    let hash ← optNatE hs
    let t ← TileDesc.mk? part width height x y tileWidth tileHeight ver imgSize id false
    let rest ← buildTiles part width height tileWidth tileHeight id
      xs ys.tail imgs.tail vers.tail olds.tail hs.tail
    pure ({ t with oldHash := oldHash, hash := hash } :: rest)

/-- The private `TileCombined` constructor: scalar invariants first
(`InvalidDescriptor`), then the cardinality check against the comma-split
lists — note the optional lists are gated on the emptiness of the original
*string*, exactly as the source tests `!imgSizes.empty()` — then the
per-index tile construction. -/
def TileCombined.mk? (part width height : Int) (tilePositionsX tilePositionsY : Str)
    (tileWidth tileHeight : Int) (vers imgSizes : Str) (id : Int)
    (oldHashes hashes : Str) : Except Err TileCombined :=
  if part < 0 ∨ width ≤ 0 ∨ height ≤ 0 ∨ tileWidth ≤ 0 ∨ tileHeight ≤ 0 then
    .error .invalidDescriptor
  else
    let xL := commaSplit tilePositionsX
    let yL := commaSplit tilePositionsY
    let imgL := commaSplit imgSizes
    let verL := commaSplit vers
    let oldL := commaSplit oldHashes
    let hashL := commaSplit hashes
    if xL.length ≠ yL.length ∨
       (imgSizes ≠ [] ∧ xL.length ≠ imgL.length) ∨
       (vers ≠ [] ∧ xL.length ≠ verL.length) ∨
       (oldHashes ≠ [] ∧ xL.length ≠ oldL.length) ∨
       (hashes ≠ [] ∧ xL.length ≠ hashL.length) then
      .error .cardinalityMismatch
    else
      (buildTiles part width height tileWidth tileHeight id xL yL imgL verL oldL hashL).map
        (fun ts => ⟨ts, part, width, height, tileWidth, tileHeight, id⟩)

/-- `TileCombined::serialize`: shared scalars once, then each per-tile list
with a trailing comma per element and a `seekp(-1)` before the next write;
the final `substr(0, tellp())` removes a trailing comma that was seeked
over but never overwritten (the `id < 0` case). -/
def TileCombined.serialize (tc : TileCombined) (pfx : Str) : Str :=
  let o1 := OSS.write ⟨[], 0⟩ (pfx ++ strL " part=" ++ intStr tc.part
    ++ strL " width=" ++ intStr tc.width ++ strL " height=" ++ intStr tc.height
    ++ strL " tileposx=")
  let o2 := tc.tiles.foldl (fun o t => o.write (intStr t.tilePosX ++ [','])) o1
  let o3 := (o2.seekBack1).write (strL " tileposy=")
  let o4 := tc.tiles.foldl (fun o t => o.write (intStr t.tilePosY ++ [','])) o3
  let o5 := (o4.seekBack1).write (strL " imgsize=")
  let o6 := tc.tiles.foldl (fun o t => o.write (intStr t.imgSize ++ [','])) o5
  let o7 := (o6.seekBack1).write (strL " tilewidth=" ++ intStr tc.tileWidth
    ++ strL " tileheight=" ++ intStr tc.tileHeight ++ strL " ver=")
  let o8 := tc.tiles.foldl (fun o t => o.write (intStr t.ver ++ [','])) o7
  let o9 := (o8.seekBack1).write (strL " oldhash=")
  let o10 := tc.tiles.foldl (fun o t => o.write (natToChars t.oldHash ++ [','])) o9
  let o11 := (o10.seekBack1).write (strL " hash=")
  let o12 := tc.tiles.foldl (fun o t => o.write (natToChars t.hash ++ [','])) o11
  let o13 := o12.seekBack1
  let o14 := if tc.id ≥ 0 then o13.write (strL " id=" ++ intStr tc.id) else o13
  o14.out

/-- State of the token scan of `TileCombined::parse`: the `pairs` map and
the six deferred raw list strings. -/
structure CombParseSt where
  pairs : List (Str × Int)
  posX : Str
  posY : Str
  imgs : Str
  vers : Str
  oldhs : Str
  hs : Str
deriving Repr

/-- One iteration of the token loop of `TileCombined::parse`: the six list
keys are captured as raw strings; any other `name=value` whose value reads
as an integer goes to `pairs`; other tokens are skipped. -/
def combStep (st : CombParseSt) (tok : Str) : CombParseSt :=
  match parseNameValuePair tok with
  | some (n, v) =>
    if n = strL "tileposx" then { st with posX := v }
    else if n = strL "tileposy" then { st with posY := v }
    else if n = strL "imgsize" then { st with imgs := v }
    else if n = strL "ver" then { st with vers := v }
    else if n = strL "oldhash" then { st with oldhs := v }
    else if n = strL "hash" then { st with hs := v }
    else
      match parseInt? v with
      | some i => { st with pairs := (n, i) :: st.pairs }
      | none => st
  | none => st

/-- The initial state of the batch token scan: only `id` is defaulted. -/
def combInitSt : CombParseSt := ⟨[(strL "id", -1)], [], [], [], [], [], []⟩

/-- `TileCombined::parse` over a token list. -/
def TileCombined.parseTokens (tokens : List Str) : Except Err TileCombined :=
  let st := tokens.foldl combStep combInitSt
  TileCombined.mk? (lookupPairs st.pairs (strL "part")) (lookupPairs st.pairs (strL "width"))
    (lookupPairs st.pairs (strL "height")) st.posX st.posY
    (lookupPairs st.pairs (strL "tilewidth")) (lookupPairs st.pairs (strL "tileheight"))
    st.vers st.imgs (lookupPairs st.pairs (strL "id")) st.oldhs st.hs

/-- `TileCombined::parse` over a raw message string. -/
def TileCombined.parseMsg (message : Str) : Except Err TileCombined :=
  TileCombined.parseTokens (tokenize message)

/-- `TileCombined::create`: comma-join position, version and hash lists of
the given tiles (the source asserts non-emptiness; the empty case is
modelled as a failure).  The version stream gets a `seekp(-1)` but is then
read back with `str()`, which returns the whole buffer — so its trailing
comma in fact remains, exactly like the other lists; `imgSizes` is
deliberately empty and `id` is `-1`. -/
def TileCombined.create (tiles : List TileDesc) : Except Err TileCombined :=
  match tiles with
  | [] => .error .invalidDescriptor
  | t0 :: _ =>
    let xs := tiles.foldl (fun a t => a ++ intStr t.tilePosX ++ [',']) []
    let ys := tiles.foldl (fun a t => a ++ intStr t.tilePosY ++ [',']) []
    let oldhs := tiles.foldl (fun a t => a ++ natToChars t.oldHash ++ [',']) []
    let hs := tiles.foldl (fun a t => a ++ natToChars t.hash ++ [',']) []
    let versO := (tiles.foldl (fun o t => OSS.write o (intStr t.ver ++ [','])) ⟨[], 0⟩).seekBack1
    TileCombined.mk? t0.part t0.width t0.height xs ys t0.tileWidth t0.tileHeight
      versO.buf [] (-1) oldhs hs

/-- Concrete two-tile batch used as the C9 witness. -/
def tcC9 : TileCombined :=
  ⟨[⟨1, 2, 3, 0, 0, 4, 5, -1, 0, 7, false, 0, 0⟩,
    ⟨1, 2, 3, 256, 0, 4, 5, -1, 0, 7, false, 0, 0⟩], 1, 2, 3, 4, 5, 7⟩

/-- Concrete one-tile batch (parsed from tokens) used as the C10 witness. -/
def tcC10 : TileCombined :=
  ⟨[⟨0, 1, 1, 0, 0, 1, 1, -1, 0, -1, false, 0, 0⟩], 0, 1, 1, 1, 1, -1⟩

/-- The tile a created batch carries for each input tile: the head tile's
geometry, the input's position, version and hashes, `imgSize 0`, `id -1`,
`broadcast false`. -/
def normTile (t0 t : TileDesc) : TileDesc :=
  ⟨t0.part, t0.width, t0.height, t.tilePosX, t.tilePosY, t0.tileWidth, t0.tileHeight,
   t.ver, 0, -1, false, t.oldHash, t.hash⟩

/-- The token list produced by serializing a batch whose id is absent. -/
def combTokens (tc : TileCombined) : List Str :=
  [strL "part" ++ '=' :: intStr tc.part,
   strL "width" ++ '=' :: intStr tc.width,
   strL "height" ++ '=' :: intStr tc.height,
   strL "tileposx" ++ '=' :: joinSep ',' (tc.tiles.map (fun t => intStr t.tilePosX)),
   strL "tileposy" ++ '=' :: joinSep ',' (tc.tiles.map (fun t => intStr t.tilePosY)),
   strL "imgsize" ++ '=' :: joinSep ',' (tc.tiles.map (fun t => intStr t.imgSize)),
   strL "tilewidth" ++ '=' :: intStr tc.tileWidth,
   strL "tileheight" ++ '=' :: intStr tc.tileHeight,
   strL "ver" ++ '=' :: joinSep ',' (tc.tiles.map (fun t => intStr t.ver)),
   strL "oldhash" ++ '=' :: joinSep ',' (tc.tiles.map (fun t => natToChars t.oldHash)),
   strL "hash" ++ '=' :: joinSep ',' (tc.tiles.map (fun t => natToChars t.hash))]

/-- A valid tile carrying `id = 5`, for the C8 counterexample. -/
def c8Tile : TileDesc := ⟨0, 1, 1, 0, 0, 1, 1, -1, 0, 5, false, 0, 0⟩

/-- A valid tile with absent id, for the C8 witness. -/
def w8Tile : TileDesc := ⟨2, 512, 512, 0, 256, 256, 256, 3, 0, -1, false, 7, 9⟩

theorem digitsRevAux_fuel_irrel (fuel fuel' n : Nat) (h : n ≤ fuel) (h' : n ≤ fuel') :
    digitsRevAux fuel n = digitsRevAux fuel' n := by
  induction fuel generalizing fuel' n with
  | zero =>
    interval_cases n
    cases fuel' <;> simp [digitsRevAux]
  | succ f ih =>
    cases fuel' with
    | zero =>
      interval_cases n
      simp [digitsRevAux]
    | succ f' =>
      by_cases hn : n = 0
      · simp [digitsRevAux, hn]
      · have hd : n / 10 < n := Nat.div_lt_self (Nat.pos_of_ne_zero hn) (by omega)
        simp only [digitsRevAux, if_neg hn]
        rw [ih f' (n / 10) (by omega) (by omega)]

theorem digitsRevVal_digitsRevAux (fuel n : Nat) (h : n ≤ fuel) :
    digitsRevVal (digitsRevAux fuel n) = n := by
  induction fuel generalizing n with
  | zero =>
    interval_cases n
    simp [digitsRevAux, digitsRevVal]
  | succ f ih =>
    by_cases hn : n = 0
    · simp [digitsRevAux, hn, digitsRevVal]
    · have hd : n / 10 < n := Nat.div_lt_self (Nat.pos_of_ne_zero hn) (by omega)
      simp only [digitsRevAux, if_neg hn, digitsRevVal]
      rw [ih (n / 10) (by omega)]
      omega

theorem digitsRevVal_natDigitsRev (n : Nat) : digitsRevVal (natDigitsRev n) = n :=
  digitsRevVal_digitsRevAux n n (Nat.le_refl n)

theorem mem_digitsRevAux_lt (fuel n d : Nat) (hd : d ∈ digitsRevAux fuel n) : d < 10 := by
  induction fuel generalizing n with
  | zero => simp [digitsRevAux] at hd
  | succ f ih =>
    by_cases hn : n = 0
    · simp [digitsRevAux, hn] at hd
    · simp only [digitsRevAux, if_neg hn, List.mem_cons] at hd
      rcases hd with h | h
      · omega
      · exact ih _ h

theorem natDigitsRev_ne_nil (n : Nat) (h : n ≠ 0) : natDigitsRev n ≠ [] := by
  unfold natDigitsRev
  cases n with
  | zero => omega
  | succ m => simp [digitsRevAux, h]

theorem digitChar_facts : ∀ d : Nat, d < 10 →
    charVal (Nat.digitChar d) = some d ∧
    Nat.digitChar d ≠ ' ' ∧ Nat.digitChar d ≠ ',' ∧ Nat.digitChar d ≠ '=' ∧
    Nat.digitChar d ≠ '-' ∧ (Nat.digitChar d).isWhitespace = false := by
  decide

theorem charsToNatAux_append (acc : Nat) (l1 l2 : Str) :
    charsToNatAux acc (l1 ++ l2) =
      (charsToNatAux acc l1).bind (fun a => charsToNatAux a l2) := by
  induction l1 generalizing acc with
  | nil => simp [charsToNatAux]
  | cons c rest ih =>
    simp only [List.cons_append, charsToNatAux]
    cases charVal c with
    | none => simp
    | some d => simp [ih]

theorem charsToNatAux_digits (acc : Nat) (r : List Nat) (h : ∀ d ∈ r, d < 10) :
    charsToNatAux acc (r.reverse.map Nat.digitChar) = some (acc * 10 ^ r.length + digitsRevVal r) := by
  induction r generalizing acc with
  | nil => simp [charsToNatAux, digitsRevVal]
  | cons d ds ih =>
    have hd : d < 10 := h d (List.mem_cons_self d ds)
    have hds : ∀ x ∈ ds, x < 10 := fun x hx => h x (List.mem_cons_of_mem d hx)
    simp only [List.reverse_cons, List.map_append, List.map_cons, List.map_nil]
    rw [charsToNatAux_append, ih acc hds]
    simp only [Option.some_bind, charsToNatAux, (digitChar_facts d hd).1, digitsRevVal,
      List.length_cons]
    congr 1
    ring

theorem charsToNat_of_ne_nil (s : Str) (h : s ≠ []) : charsToNat? s = charsToNatAux 0 s := by
  cases s with
  | nil => exact absurd rfl h
  | cons c rest => rfl

theorem charsToNat_natToChars (n : Nat) : charsToNat? (natToChars n) = some n := by
  by_cases hn : n = 0
  · subst hn
    decide
  · have hne : natDigitsRev n ≠ [] := natDigitsRev_ne_nil n hn
    have hlt : ∀ d ∈ natDigitsRev n, d < 10 := fun d hd => mem_digitsRevAux_lt n n d hd
    unfold natToChars
    rw [if_neg hn]
    rw [charsToNat_of_ne_nil _ (by simpa using hne)]
    rw [charsToNatAux_digits 0 (natDigitsRev n) hlt]
    simp [digitsRevVal_natDigitsRev]

theorem mem_natToChars (n : Nat) (c : Char) (hc : c ∈ natToChars n) :
    ∃ d, d < 10 ∧ c = Nat.digitChar d := by
  by_cases hn : n = 0
  · subst hn
    simp only [natToChars, if_pos rfl] at hc
    refine ⟨0, by omega, ?_⟩
    simpa [strL] using hc
  · simp only [natToChars, if_neg hn, List.mem_map, List.mem_reverse] at hc
    obtain ⟨d, hd, rfl⟩ := hc
    exact ⟨d, mem_digitsRevAux_lt n n d hd, rfl⟩

theorem natToChars_ne_nil (n : Nat) : natToChars n ≠ [] := by
  by_cases hn : n = 0
  · subst hn
    decide
  · simp only [natToChars, if_neg hn]
    intro h
    exact natDigitsRev_ne_nil n hn (by simpa using h)

theorem natToChars_not_space (n : Nat) (c : Char) (hc : c ∈ natToChars n) :
    c ≠ ' ' ∧ c ≠ ',' ∧ c ≠ '=' ∧ c.isWhitespace = false := by
  obtain ⟨d, hd, rfl⟩ := mem_natToChars n c hc
  have := digitChar_facts d hd
  exact ⟨this.2.1, this.2.2.1, this.2.2.2.1, this.2.2.2.2.2⟩

theorem intStr_ne_nil (i : Int) : intStr i ≠ [] := by
  unfold intStr
  split
  · simp
  · exact natToChars_ne_nil _

theorem mem_intStr_not_space (i : Int) (c : Char) (hc : c ∈ intStr i) :
    c ≠ ' ' ∧ c ≠ ',' ∧ c ≠ '=' ∧ c.isWhitespace = false := by
  unfold intStr at hc
  split at hc
  · rcases List.mem_cons.mp hc with rfl | h
    · refine ⟨by decide, by decide, by decide, by decide⟩
    · exact natToChars_not_space _ _ h
  · exact natToChars_not_space _ _ hc

theorem parseInt_intStr (i : Int) : parseInt? (intStr i) = some i := by
  by_cases hi : i < 0
  · have h1 : intStr i = '-' :: natToChars (-i).toNat := by rw [intStr, if_pos hi]
    rw [h1]
    show (charsToNat? (natToChars (-i).toNat)).map (fun n => -(n : Int)) = some i
    rw [charsToNat_natToChars]
    show (some (-(((-i).toNat : Nat) : Int)) : Option Int) = some i
    congr 1
    omega
  · simp only [intStr, if_neg hi]
    obtain ⟨c, rest, hcr⟩ : ∃ c rest, natToChars i.toNat = c :: rest := by
      cases h : natToChars i.toNat with
      | nil => exact absurd h (natToChars_ne_nil _)
      | cons c rest => exact ⟨c, rest, rfl⟩
    rw [hcr]
    have hcne : c ≠ '-' := by
      have hc : c ∈ natToChars i.toNat := by rw [hcr]; exact List.mem_cons_self c rest
      obtain ⟨d, hd, rfl⟩ := mem_natToChars _ _ hc
      exact (digitChar_facts d hd).2.2.2.2.1
    simp only [parseInt?, if_neg hcne]
    rw [← hcr, charsToNat_natToChars]
    have h0 : 0 ≤ i := Int.not_lt.mp hi
    simp [Int.toNat_of_nonneg h0]

theorem splitOnChar_ne_nil (c : Char) (s : Str) : splitOnChar c s ≠ [] := by
  induction s with
  | nil => simp [splitOnChar]
  | cons a rest ih =>
    cases h : splitOnChar c rest with
    | nil => simp [splitOnChar, h]
    | cons t ts =>
      simp only [splitOnChar, h]
      split <;> simp

theorem splitOnChar_cons_sep (c : Char) (s : Str) :
    splitOnChar c (c :: s) = [] :: splitOnChar c s := by
  cases h : splitOnChar c s with
  | nil => exact absurd h (splitOnChar_ne_nil c s)
  | cons t ts => simp [splitOnChar, h]

theorem splitOnChar_cons (c a : Char) (s : Str) (hd : Str) (tl : List Str)
    (h : splitOnChar c s = hd :: tl) :
    splitOnChar c (a :: s) = if a = c then [] :: hd :: tl else (a :: hd) :: tl := by
  simp only [splitOnChar]
  rw [h]

theorem splitOnChar_append (c : Char) (t R : Str) (hd : Str) (tl : List Str)
    (hmem : ∀ x ∈ t, x ≠ c) (hR : splitOnChar c R = hd :: tl) :
    splitOnChar c (t ++ R) = (t ++ hd) :: tl := by
  induction t with
  | nil => simpa using hR
  | cons a t' ih =>
    have ha : a ≠ c := hmem a (List.mem_cons_self a t')
    have heq := ih (fun x hx => hmem x (List.mem_cons_of_mem a hx))
    rw [List.cons_append, splitOnChar_cons c a _ _ _ heq, if_neg ha, List.cons_append]

theorem splitOnChar_not_mem (c : Char) (t : Str) (hmem : ∀ x ∈ t, x ≠ c) :
    splitOnChar c t = [t] := by
  have := splitOnChar_append c t [] [] [] hmem (by simp [splitOnChar])
  simpa using this

theorem dropWhile_eq_self_of_not (p : Char → Bool) (s : Str)
    (h : ∀ x ∈ s, p x = false) : s.dropWhile p = s := by
  cases s with
  | nil => rfl
  | cons a rest =>
    rw [List.dropWhile_cons_of_neg]
    simp [h a (List.mem_cons_self a rest)]

theorem trimWS_eq_self (s : Str) (h : ∀ x ∈ s, x.isWhitespace = false) : trimWS s = s := by
  unfold trimWS
  rw [dropWhile_eq_self_of_not _ _ h,
    dropWhile_eq_self_of_not _ _ (fun x hx => h x (List.mem_reverse.mp hx)),
    List.reverse_reverse]

/-- Fragments that are nonempty, separator-free and whitespace-free are
recovered exactly by splitting their separator-join. -/
theorem splitOnChar_joinSep (c : Char) (ls : List Str)
    (hne : ∀ l ∈ ls, l ≠ []) (hc : ∀ l ∈ ls, ∀ x ∈ l, x ≠ c) :
    splitOnChar c (joinSep c ls) = if ls = [] then [[]] else ls := by
  induction ls with
  | nil => simp [joinSep, splitOnChar]
  | cons l ls' ih =>
    cases ls' with
    | nil =>
      simp only [joinSep]
      rw [splitOnChar_not_mem c l (hc l (List.mem_cons_self l []))]
      simp
    | cons l2 ls'' =>
      have hstep : joinSep c (l :: l2 :: ls'') = l ++ c :: joinSep c (l2 :: ls'') := rfl
      rw [hstep]
      have ihr := ih (fun x hx => hne x (List.mem_cons_of_mem l hx))
        (fun x hx => hc x (List.mem_cons_of_mem l hx))
      rw [if_neg (by simp)] at ihr
      have hcs : splitOnChar c (c :: joinSep c (l2 :: ls'')) = [] :: l2 :: ls'' := by
        rw [splitOnChar_cons_sep, ihr]
      rw [splitOnChar_append c l _ [] (l2 :: ls'') (hc l (List.mem_cons_self l _)) hcs]
      simp

theorem commaSplit_joinSep (ls : List Str)
    (hne : ∀ l ∈ ls, l ≠ []) (hc : ∀ l ∈ ls, ∀ x ∈ l, x ≠ ',')
    (hws : ∀ l ∈ ls, ∀ x ∈ l, x.isWhitespace = false) :
    commaSplit (joinSep ',' ls) = ls := by
  unfold commaSplit
  rw [splitOnChar_joinSep ',' ls hne hc]
  cases ls with
  | nil => simp [trimWS]
  | cons l ls' =>
    rw [if_neg (by simp)]
    have htrim : ∀ l' ∈ l :: ls', trimWS l' = l' := fun l' hl' =>
      trimWS_eq_self l' (hws l' hl')
    rw [List.map_congr_left htrim, List.map_id']
    rw [List.filter_eq_self.mpr]
    intro a ha
    simp [List.isEmpty_iff, hne a ha]

/-- Splitting a fragment sequence where every element carries a trailing
separator (the incremental-append pattern of the source) recovers the
fragments plus one final empty fragment. -/
theorem splitOnChar_concat_trailing (c : Char) (ls : List Str)
    (hc : ∀ l ∈ ls, ∀ x ∈ l, x ≠ c) :
    splitOnChar c (ls.foldr (fun l acc => l ++ (c :: acc)) []) = ls ++ [[]] := by
  induction ls with
  | nil => simp [splitOnChar]
  | cons l ls' ih =>
    simp only [List.foldr_cons]
    have ihr := ih (fun x hx => hc x (List.mem_cons_of_mem l hx))
    cases h : splitOnChar c (ls'.foldr (fun l acc => l ++ (c :: acc)) []) with
    | nil => exact absurd h (splitOnChar_ne_nil c _)
    | cons hd tl =>
      have hcs : splitOnChar c (c :: ls'.foldr (fun l acc => l ++ (c :: acc)) []) =
          [] :: hd :: tl := by
        rw [splitOnChar_cons_sep, h]
      rw [splitOnChar_append c l _ [] (hd :: tl) (hc l (List.mem_cons_self l _)) hcs]
      rw [h] at ihr
      simp only [List.cons_append, List.append_nil]
      rw [ihr]

theorem commaSplit_concat_trailing (ls : List Str)
    (hne : ∀ l ∈ ls, l ≠ []) (hc : ∀ l ∈ ls, ∀ x ∈ l, x ≠ ',')
    (hws : ∀ l ∈ ls, ∀ x ∈ l, x.isWhitespace = false) :
    commaSplit (ls.foldr (fun l acc => l ++ (',' :: acc)) []) = ls := by
  unfold commaSplit
  rw [splitOnChar_concat_trailing ',' ls hc]
  have htrim : ∀ l' ∈ ls ++ [[]], trimWS l' = l' := by
    intro l' hl'
    rcases List.mem_append.mp hl' with h | h
    · exact trimWS_eq_self l' (hws l' h)
    · simp only [List.mem_singleton] at h
      subst h
      rfl
  rw [List.map_congr_left htrim, List.map_id']
  rw [List.filter_append]
  rw [List.filter_eq_self.mpr (by intro a ha; simp [List.isEmpty_iff, hne a ha])]
  simp

/-- Tokens that are nonempty and space-free are recovered exactly by
tokenizing their space-prefixed concatenation — the shape every
`serialize` in the source produces. -/
theorem tokenize_spaced (ts : List Str)
    (hne : ∀ t ∈ ts, t ≠ []) (hsp : ∀ t ∈ ts, ∀ x ∈ t, x ≠ ' ') :
    tokenize (ts.foldr (fun t acc => ' ' :: (t ++ acc)) []) = ts := by
  induction ts with
  | nil => simp [tokenize, splitOnChar]
  | cons t ts' ih =>
    have ihr := ih (fun x hx => hne x (List.mem_cons_of_mem t hx))
      (fun x hx => hsp x (List.mem_cons_of_mem t hx))
    unfold tokenize at ihr ⊢
    rw [List.foldr_cons, splitOnChar_cons_sep]
    cases h : splitOnChar ' ' (ts'.foldr (fun t acc => ' ' :: (t ++ acc)) []) with
    | nil => exact absurd h (splitOnChar_ne_nil _ _)
    | cons hd tl =>
      have hhd : hd = [] := by
        cases ts' with
        | nil =>
          simp [splitOnChar] at h
          exact h.1
        | cons u us =>
          rw [List.foldr_cons, splitOnChar_cons_sep] at h
          have hh := congrArg List.head? h
          simpa using hh.symm
      subst hhd
      rw [splitOnChar_append ' ' t _ [] tl (hsp t (List.mem_cons_self t _)) h]
      rw [h] at ihr
      simp only [List.filter_cons, List.append_nil] at ihr ⊢
      have hte : t.isEmpty = false := by
        simp [List.isEmpty_iff, hne t (List.mem_cons_self t _)]
      simp only [hte, List.isEmpty_nil] at ihr ⊢
      simp only [Bool.not_false, Bool.not_true, if_true, if_false] at ihr ⊢
      simp at ihr ⊢
      exact ihr

theorem parseNameValuePair_build (name v : Str) (h : ∀ x ∈ name, x ≠ '=') :
    parseNameValuePair (name ++ ('=' :: v)) = some (name, v) := by
  induction name with
  | nil => simp [parseNameValuePair]
  | cons c rest ih =>
    have hc : c ≠ '=' := h c (List.mem_cons_self c rest)
    have heq := ih (fun x hx => h x (List.mem_cons_of_mem c hx))
    rw [List.cons_append]
    simp only [parseNameValuePair, if_neg hc]
    rw [heq]

theorem parseNameValuePair_none (tok : Str) (h : ∀ x ∈ tok, x ≠ '=') :
    parseNameValuePair tok = none := by
  induction tok with
  | nil => rfl
  | cons c rest ih =>
    have hc : c ≠ '=' := h c (List.mem_cons_self c rest)
    simp only [parseNameValuePair, if_neg hc]
    rw [ih (fun x hx => h x (List.mem_cons_of_mem c hx))]

/-- C2: the `TileDescriptor` constructor fails with `InvalidDescriptor`
exactly when one of the scalar invariants is violated (`part<0`,
`width≤0`, `height≤0`, `tilePosX<0`, `tilePosY<0`, `tileWidth≤0`,
`tileHeight≤0`, `imgSize<0`); when all hold, it yields the descriptor
carrying exactly the given field values with both hashes 0. -/
theorem claim_C2 (part width height tilePosX tilePosY tileWidth tileHeight ver imgSize id : Int)
    (broadcast : Bool) :
    (TileDesc.mk? part width height tilePosX tilePosY tileWidth tileHeight ver imgSize id
        broadcast = .error .invalidDescriptor ↔
      (part < 0 ∨ width ≤ 0 ∨ height ≤ 0 ∨ tilePosX < 0 ∨ tilePosY < 0 ∨
       tileWidth ≤ 0 ∨ tileHeight ≤ 0 ∨ imgSize < 0)) ∧
    (TileDesc.mk? part width height tilePosX tilePosY tileWidth tileHeight ver imgSize id
        broadcast = .ok ⟨part, width, height, tilePosX, tilePosY, tileWidth, tileHeight,
          ver, imgSize, id, broadcast, 0, 0⟩ ↔
      ¬(part < 0 ∨ width ≤ 0 ∨ height ≤ 0 ∨ tilePosX < 0 ∨ tilePosY < 0 ∨
        tileWidth ≤ 0 ∨ tileHeight ≤ 0 ∨ imgSize < 0)) := by
  by_cases hcond : (part < 0 ∨ width ≤ 0 ∨ height ≤ 0 ∨ tilePosX < 0 ∨ tilePosY < 0 ∨
      tileWidth ≤ 0 ∨ tileHeight ≤ 0 ∨ imgSize < 0)
  · constructor
    · simp [TileDesc.mk?, hcond]
    · simp [TileDesc.mk?, hcond]
  · constructor
    · simp [TileDesc.mk?, hcond]
    · simp [TileDesc.mk?, hcond]

/-- Witness for C2 at concrete inputs: `part=-1` fails, and a fully valid
argument tuple succeeds with the exact field values and zero hashes. -/
theorem claim_C2_witness :
    TileDesc.mk? (-1) 10 10 0 0 10 10 0 0 (-1) false = .error .invalidDescriptor ∧
    TileDesc.mk? 0 10 10 0 0 10 10 0 0 (-1) false =
      .ok ⟨0, 10, 10, 0, 0, 10, 10, 0, 0, -1, false, 0, 0⟩ :=
  ⟨(claim_C2 (-1) 10 10 0 0 10 10 0 0 (-1) false).1.mpr (by decide),
   (claim_C2 0 10 10 0 0 10 10 0 0 (-1) false).2.mpr (by decide)⟩

/-- C4: the tile intersection test is symmetric: `a.intersects b` equals
`b.intersects a` for every pair of descriptors. -/
theorem claim_C4 (a b : TileDesc) : a.intersects b = b.intersects a := by
  simp only [TileDesc.intersects, TileDesc.intersectsWithRect, decide_eq_decide]
  omega

/-- C5: `isAdjacent` holds exactly when the other tile shares
`part, width, height, tileWidth, tileHeight` and the boxes intersect under
the inclusive test; concretely, 256x256 tiles at `tilePosX` 0 and 256 are
adjacent (edge-touching counts) while 0 and 512 are not. -/
theorem claim_C5 :
    (∀ a b : TileDesc, a.isAdjacent b = true ↔
      (b.part = a.part ∧ b.width = a.width ∧ b.height = a.height ∧
       b.tileWidth = a.tileWidth ∧ b.tileHeight = a.tileHeight ∧
       b.tilePosX + b.tileWidth ≥ a.tilePosX ∧ b.tilePosX ≤ a.tilePosX + a.tileWidth ∧
       b.tilePosY + b.tileHeight ≥ a.tilePosY ∧ b.tilePosY ≤ a.tilePosY + a.tileHeight)) ∧
    tileA.isAdjacent tileB256 = true ∧ tileA.isAdjacent tileB512 = false := by
  refine ⟨fun a b => ?_, by decide, by decide⟩
  unfold TileDesc.isAdjacent
  split
  · rename_i hne
    simp only [Bool.false_eq_true, false_iff]
    intro hcon
    omega
  · rename_i hne
    simp only [TileDesc.intersects, TileDesc.intersectsWithRect, decide_eq_true_eq]
    omega

/-- Witness for C5 applying the general characterization at concrete
tiles: the edge-touching pair is adjacent. -/
theorem claim_C5_witness : tileA.isAdjacent tileB256 = true :=
  (claim_C5.1 tileA tileB256).mpr (by decide)

theorem keyEq_part : strL " part=" = ' ' :: (strL "part" ++ ['=']) := by decide

theorem keyEq_width : strL " width=" = ' ' :: (strL "width" ++ ['=']) := by decide

theorem keyEq_height : strL " height=" = ' ' :: (strL "height" ++ ['=']) := by decide

theorem keyEq_tileposx : strL " tileposx=" = ' ' :: (strL "tileposx" ++ ['=']) := by decide

theorem keyEq_tileposy : strL " tileposy=" = ' ' :: (strL "tileposy" ++ ['=']) := by decide

theorem keyEq_tilewidth : strL " tilewidth=" = ' ' :: (strL "tilewidth" ++ ['=']) := by decide

theorem keyEq_tileheight : strL " tileheight=" = ' ' :: (strL "tileheight" ++ ['=']) := by decide

theorem keyEq_oldhash : strL " oldhash=" = ' ' :: (strL "oldhash" ++ ['=']) := by decide

theorem keyEq_hash : strL " hash=" = ' ' :: (strL "hash" ++ ['=']) := by decide

theorem keyEq_ver : strL " ver=" = ' ' :: (strL "ver" ++ ['=']) := by decide

theorem keyEq_id : strL " id=" = ' ' :: (strL "id" ++ ['=']) := by decide

theorem keyEq_imgsize : strL " imgsize=" = ' ' :: (strL "imgsize" ++ ['=']) := by decide

theorem keyEq_broadcast : strL " broadcast=yes" = ' ' :: (strL "broadcast" ++ ('=' :: strL "yes")) := by
  decide

theorem serialize_eq_tokens (d : TileDesc) :
    d.serialize [] = (descTokens d).foldr (fun t acc => ' ' :: (t ++ acc)) [] := by
  unfold TileDesc.serialize descTokens
  split_ifs <;>
    simp only [keyEq_part, keyEq_width, keyEq_height, keyEq_tileposx, keyEq_tileposy,
      keyEq_tilewidth, keyEq_tileheight, keyEq_oldhash, keyEq_hash, keyEq_ver, keyEq_id,
      keyEq_imgsize, keyEq_broadcast, List.foldr_cons, List.foldr_nil, List.append_assoc,
      List.cons_append, List.singleton_append, List.nil_append, List.append_nil]

theorem token_space_free (name v : Str) (hn : ∀ x ∈ name, x ≠ ' ') (hv : ∀ x ∈ v, x ≠ ' ') :
    ∀ x ∈ name ++ '=' :: v, x ≠ ' ' := by
  intro x hx
  rcases List.mem_append.mp hx with h | h
  · exact hn x h
  · rcases List.mem_cons.mp h with rfl | h
    · decide
    · exact hv x h

theorem descTokens_nonempty (d : TileDesc) : ∀ t ∈ descTokens d, t ≠ [] := by
  intro t ht
  unfold descTokens at ht
  rcases List.mem_append.mp ht with h | h
  · rcases List.mem_append.mp h with h | h
    · rcases List.mem_append.mp h with h | h
      · simp only [List.mem_cons, List.not_mem_nil, or_false] at h
        rcases h with rfl | rfl | rfl | rfl | rfl | rfl | rfl | rfl | rfl | rfl <;> simp
      · split at h <;> simp only [List.mem_singleton, List.not_mem_nil] at h
        subst h
        simp
    · split at h <;> simp only [List.mem_singleton, List.not_mem_nil] at h
      subst h
      simp
  · split at h <;> simp only [List.mem_singleton, List.not_mem_nil] at h
    subst h
    simp

theorem descTokens_spacefree (d : TileDesc) : ∀ t ∈ descTokens d, ∀ x ∈ t, x ≠ ' ' := by
  intro t ht
  have hint : ∀ i : Int, ∀ x ∈ intStr i, x ≠ ' ' := fun i x hx => (mem_intStr_not_space i x hx).1
  have hnat : ∀ n : Nat, ∀ x ∈ natToChars n, x ≠ ' ' := fun n x hx => (natToChars_not_space n x hx).1
  unfold descTokens at ht
  rcases List.mem_append.mp ht with h | h
  · rcases List.mem_append.mp h with h | h
    · rcases List.mem_append.mp h with h | h
      · simp only [List.mem_cons, List.not_mem_nil, or_false] at h
        rcases h with rfl | rfl | rfl | rfl | rfl | rfl | rfl | rfl | rfl | rfl <;>
          exact token_space_free _ _ (by decide) (by first | exact hint _ | exact hnat _)
      · split at h <;> simp only [List.mem_singleton, List.not_mem_nil] at h
        subst h
        exact token_space_free _ _ (by decide) (hint _)
    · split at h <;> simp only [List.mem_singleton, List.not_mem_nil] at h
      subst h
      exact token_space_free _ _ (by decide) (hint _)
  · split at h <;> simp only [List.mem_singleton, List.not_mem_nil] at h
    subst h
    exact token_space_free _ _ (by decide) (by decide)

theorem descStep_pair (st : DescParseSt) (name : Str) (v : Int)
    (hname : ∀ x ∈ name, x ≠ '=') (h1 : name ≠ strL "oldhash") (h2 : name ≠ strL "hash") :
    descStep st (name ++ '=' :: intStr v) = { st with pairs := (name, v) :: st.pairs } := by
  simp [descStep, getTokenUInt64Tok, parseNameIntegerPair,
    parseNameValuePair_build name _ hname, h1, h2, parseInt_intStr]

theorem descStep_oldhash (st : DescParseSt) (h : Nat) :
    descStep st (strL "oldhash" ++ '=' :: natToChars h) = { st with oldHash := h } := by
  simp [descStep, getTokenUInt64Tok,
    parseNameValuePair_build (strL "oldhash") _ (by decide), charsToNat_natToChars]

theorem descStep_hash (st : DescParseSt) (h : Nat) :
    descStep st (strL "hash" ++ '=' :: natToChars h) = { st with hash := h } := by
  simp +decide [descStep, getTokenUInt64Tok,
    parseNameValuePair_build (strL "hash") _ (by decide), charsToNat_natToChars]

theorem descStep_broadcast (st : DescParseSt) :
    descStep st (strL "broadcast" ++ '=' :: strL "yes") = st := by
  simp +decide [descStep, getTokenUInt64Tok, parseNameIntegerPair,
    parseNameValuePair_build (strL "broadcast") _ (by decide),
    show parseInt? (strL "yes") = none from by decide]

theorem tokenValue_build (target name v : Str) (hname : ∀ x ∈ name, x ≠ '=') :
    tokenValue target (name ++ '=' :: v) = if name = target then some v else none := by
  simp [tokenValue, parseNameValuePair_build name v hname]

theorem parse_serialize (d : TileDesc) (hv : d.Valid) (hid : -1 ≤ d.id) :
    TileDesc.parseTokens (tokenize (d.serialize [])) = Except.ok d := by
  obtain ⟨part, width, height, posX, posY, tw, th, ver, img, id, bc, oh, hsh⟩ := d
  simp only [TileDesc.Valid] at hv
  dsimp only at hv hid
  obtain ⟨hv1, hv2, hv3, hv4, hv5, hv6, hv7, hv8⟩ := hv
  rw [serialize_eq_tokens, tokenize_spaced _ (descTokens_nonempty _) (descTokens_spacefree _)]
  unfold TileDesc.parseTokens descTokens descInitSt
  by_cases hid0 : (id : Int) ≥ 0 <;> by_cases himg : (img : Int) > 0 <;> cases bc <;>
  · simp +decide only [hid0, himg, if_true, if_false, ite_true, ite_false,
      Bool.false_eq_true, Bool.true_eq_false,
      List.cons_append, List.nil_append, List.append_nil, List.singleton_append,
      List.foldl_cons, List.foldl_nil,
      descStep_pair, descStep_oldhash, descStep_hash, descStep_broadcast,
      getTokenString, List.findSome?, tokenValue_build, lookupPairs]
    rw [TileDesc.mk?, if_neg (by omega)]
    simp +decide only [Except.map, Except.ok.injEq, TileDesc.mk.injEq, and_true, true_and]
    try omega

theorem eqId_refl (d : TileDesc) : d.eqId d = true := by
  simp [TileDesc.eqId]

/-- Counterexample to C1 as stated: `cDesc` is a valid descriptor, yet
parsing its serialization yields a descriptor with `id = -1 ≠ -5`, so
identity-field equality fails and `id` is not preserved. -/
theorem claim_C1_counterexample :
    cDesc.Valid ∧
    TileDesc.parseTokens (tokenize (cDesc.serialize [])) =
      Except.ok ⟨0, 1, 1, 0, 0, 1, 1, -1, 0, -1, false, 0, 0⟩ ∧
    (TileDesc.parseTokens (tokenize (cDesc.serialize []))).map (fun p => p.eqId cDesc) ≠
      Except.ok true := by
  refine ⟨by decide, by decide, by decide⟩

/-- C1 (amended): for every valid descriptor whose `id` is at least `-1`
(the wire format cannot carry a negative id other than the "absent" value
`-1`), parsing the serialization with empty prefix returns the descriptor
itself exactly — hence identity-field equality holds and `version`,
`imgSize`, `id`, `broadcast`, `oldHash`, `hash` are all preserved. -/
theorem claim_C1 (d : TileDesc) (hv : d.Valid) (hid : -1 ≤ d.id) :
    TileDesc.parseTokens (tokenize (d.serialize [])) = Except.ok d ∧
    ∀ d', TileDesc.parseTokens (tokenize (d.serialize [])) = Except.ok d' →
      d'.eqId d = true ∧ d'.ver = d.ver ∧ d'.imgSize = d.imgSize ∧ d'.id = d.id ∧
      d'.broadcast = d.broadcast ∧ d'.oldHash = d.oldHash ∧ d'.hash = d.hash := by
  have h := parse_serialize d hv hid
  refine ⟨h, fun d' hd' => ?_⟩
  rw [h, Except.ok.injEq] at hd'
  subst hd'
  exact ⟨eqId_refl d, rfl, rfl, rfl, rfl, rfl, rfl⟩

/-- Witness for C1 at a concrete descriptor with all optional fields set. -/
theorem claim_C1_witness :
    TileDesc.parseTokens (tokenize (wDesc.serialize [])) = Except.ok wDesc :=
  (claim_C1 wDesc (by decide) (by decide)).1

/-- Counterexample to C3 as stated: the token `garbage` cannot be
interpreted as `name=integer` and is not `oldhash`/`hash`/`broadcast`,
yet `parse` succeeds — it does not fail with `MalformedMessage`. -/
theorem claim_C3_counterexample :
    TileDesc.parseTokens c3Tokens =
      Except.ok ⟨0, 10, 10, 0, 0, 10, 10, -1, 0, -1, false, 0, 0⟩ := by
  decide

theorem findSome?_middle {α β : Type} (f : α → Option β) (pre post : List α) (tok : α)
    (h : f tok = none) :
    List.findSome? f (pre ++ tok :: post) = List.findSome? f (pre ++ post) := by
  induction pre with
  | nil => simp [List.findSome?, h]
  | cons a l ih =>
    simp only [List.cons_append, List.findSome?]
    cases f a <;> simp [ih]

/-- C3 (amended): a token that cannot be interpreted as `name=integer` and
is not one of the specially-handled keys (`oldhash`, `hash`, `broadcast`)
is silently ignored by `TileDescriptor::parse` — the parse result is as if
the token were absent; no `MalformedMessage` failure occurs. -/
theorem claim_C3 (pre post : List Str) (tok : Str)
    (h1 : getTokenUInt64Tok tok (strL "oldhash") = none)
    (h2 : getTokenUInt64Tok tok (strL "hash") = none)
    (h3 : parseNameIntegerPair tok = none)
    (h4 : tokenValue (strL "broadcast") tok = none) :
    TileDesc.parseTokens (pre ++ tok :: post) = TileDesc.parseTokens (pre ++ post) := by
  have hstep : ∀ st : DescParseSt, descStep st tok = st := by
    intro st
    simp [descStep, h1, h2, h3]
  unfold TileDesc.parseTokens
  have hfold : (pre ++ tok :: post).foldl descStep descInitSt =
      (pre ++ post).foldl descStep descInitSt := by
    rw [List.foldl_append, List.foldl_append, List.foldl_cons, hstep]
  have hbc : getTokenString (pre ++ tok :: post) (strL "broadcast") =
      getTokenString (pre ++ post) (strL "broadcast") := by
    unfold getTokenString
    exact findSome?_middle _ pre post tok h4
  rw [hfold, hbc]

/-- Witness for C3 (amended) at a concrete garbage token. -/
theorem claim_C3_witness :
    TileDesc.parseTokens ([strL "part=0"] ++ strL "garbage" :: [strL "width=1"]) =
      TileDesc.parseTokens ([strL "part=0"] ++ [strL "width=1"]) :=
  claim_C3 [strL "part=0"] [strL "width=1"] (strL "garbage")
    (by decide) (by decide) (by decide) (by decide)

/-! ### Properties of the batch constructor -/

theorem bindOk {α β : Type} {e : Except Err α} {f : α → Except Err β} {b : β}
    (h : e >>= f = .ok b) : ∃ a, e = .ok a ∧ f a = .ok b := by
  cases e with
  | error err => simp [Bind.bind, Except.bind] at h
  | ok a => exact ⟨a, rfl, by simpa [Bind.bind, Except.bind] using h⟩

theorem mapOk {α β : Type} {e : Except Err α} {f : α → β} {b : β}
    (h : Except.map f e = .ok b) : ∃ a, e = .ok a ∧ f a = b := by
  cases e with
  | error err => simp [Except.map] at h
  | ok a =>
    simp only [Except.map, Except.ok.injEq] at h
    exact ⟨a, rfl, h⟩

theorem tileDescMkOk {part width height x y tw th ver img id : Int} {b : Bool}
    {t : TileDesc} (h : TileDesc.mk? part width height x y tw th ver img id b = .ok t) :
    t = ⟨part, width, height, x, y, tw, th, ver, img, id, b, 0, 0⟩ := by
  unfold TileDesc.mk? at h
  split at h
  · simp at h
  · simp only [Except.ok.injEq] at h
    exact h.symm

/-- Every tile built by the constructor loop carries the batch scalars, the
batch id and `broadcast=false`; and each optional list that is empty yields
its per-tile default for every tile. -/
theorem buildTiles_mem (p w h tw th id : Int) :
    ∀ (xs ys imgs vers olds hss : List Str) (ts : List TileDesc),
    buildTiles p w h tw th id xs ys imgs vers olds hss = .ok ts →
    ∀ t ∈ ts, t.part = p ∧ t.width = w ∧ t.height = h ∧ t.tileWidth = tw ∧ t.tileHeight = th ∧
      t.id = id ∧ t.broadcast = false ∧
      (imgs = [] → t.imgSize = 0) ∧ (vers = [] → t.ver = -1) ∧
      (olds = [] → t.oldHash = 0) ∧ (hss = [] → t.hash = 0)
  | [], ys, imgs, vers, olds, hss, ts, hok, t, ht => by
    simp only [buildTiles, Except.ok.injEq] at hok
    subst hok
    simp at ht
  | xTok :: xs, ys, imgs, vers, olds, hss, ts, hok, t, ht => by
    simp only [buildTiles] at hok
    obtain ⟨x, hx, hok⟩ := bindOk hok
    obtain ⟨y, hy, hok⟩ := bindOk hok
    obtain ⟨imgv, himgv, hok⟩ := bindOk hok
    obtain ⟨verv, hverv, hok⟩ := bindOk hok
    obtain ⟨oldv, holdv, hok⟩ := bindOk hok
    obtain ⟨hashv, hhashv, hok⟩ := bindOk hok
    obtain ⟨t0, ht0, hok⟩ := bindOk hok
    obtain ⟨rest, hrest, hok⟩ := bindOk hok
    simp only [pure, Except.pure, Except.ok.injEq] at hok
    subst hok
    rcases List.mem_cons.mp ht with rfl | hmem
    · have ht0' := tileDescMkOk ht0
      subst ht0'
      refine ⟨rfl, rfl, rfl, rfl, rfl, rfl, rfl, ?_, ?_, ?_, ?_⟩
      · intro hh
        subst hh
        have h0 : (Except.ok 0 : Except Err Int) = Except.ok imgv := by
          simpa [optImgE, pure, Except.pure] using himgv
        simp only [Except.ok.injEq] at h0
        exact h0.symm
      · intro hh
        subst hh
        have h0 : (Except.ok (-1) : Except Err Int) = Except.ok verv := by
          simpa [optVerE, pure, Except.pure] using hverv
        simp only [Except.ok.injEq] at h0
        exact h0.symm
      · intro hh
        subst hh
        have h0 : (Except.ok 0 : Except Err Nat) = Except.ok oldv := by
          simpa [optNatE, pure, Except.pure] using holdv
        simp only [Except.ok.injEq] at h0
        exact h0.symm
      · intro hh
        subst hh
        have h0 : (Except.ok 0 : Except Err Nat) = Except.ok hashv := by
          simpa [optNatE, pure, Except.pure] using hhashv
        simp only [Except.ok.injEq] at h0
        exact h0.symm
    · obtain ⟨a1, a2, a3, a4, a5, a6, a7, a8, a9, a10, a11⟩ :=
        buildTiles_mem p w h tw th id xs ys.tail imgs.tail vers.tail olds.tail hss.tail
          rest hrest t hmem
      exact ⟨a1, a2, a3, a4, a5, a6, a7,
        fun hh => a8 (by subst hh; rfl), fun hh => a9 (by subst hh; rfl),
        fun hh => a10 (by subst hh; rfl), fun hh => a11 (by subst hh; rfl)⟩

theorem commaSplit_nil : commaSplit [] = [] := rfl

/-- Shape of a successful `TileCombined` construction: the scalars are the
arguments, and every tile carries them (plus the defaults of any empty
optional list). -/
theorem tileCombinedMkOk
    {part width height : Int} {posXs posYs : Str} {tileWidth tileHeight : Int}
    {vers imgSizes : Str} {id : Int} {oldHashes hashes : Str} {tc : TileCombined}
    (hok : TileCombined.mk? part width height posXs posYs tileWidth tileHeight
      vers imgSizes id oldHashes hashes = .ok tc) :
    tc.part = part ∧ tc.width = width ∧ tc.height = height ∧
    tc.tileWidth = tileWidth ∧ tc.tileHeight = tileHeight ∧ tc.id = id ∧
    ∀ t ∈ tc.tiles, t.part = part ∧ t.width = width ∧ t.height = height ∧
      t.tileWidth = tileWidth ∧ t.tileHeight = tileHeight ∧ t.id = id ∧ t.broadcast = false ∧
      (imgSizes = [] → t.imgSize = 0) ∧ (vers = [] → t.ver = -1) ∧
      (oldHashes = [] → t.oldHash = 0) ∧ (hashes = [] → t.hash = 0) := by
  simp only [TileCombined.mk?] at hok
  split at hok
  · simp at hok
  · split at hok
    · simp at hok
    · obtain ⟨ts, hts, htc⟩ := mapOk hok
      subst htc
      refine ⟨rfl, rfl, rfl, rfl, rfl, rfl, ?_⟩
      intro t ht
      obtain ⟨a1, a2, a3, a4, a5, a6, a7, a8, a9, a10, a11⟩ :=
        buildTiles_mem part width height tileWidth tileHeight id _ _ _ _ _ _ ts hts t ht
      exact ⟨a1, a2, a3, a4, a5, a6, a7,
        fun hh => a8 (by subst hh; exact commaSplit_nil),
        fun hh => a9 (by subst hh; exact commaSplit_nil),
        fun hh => a10 (by subst hh; exact commaSplit_nil),
        fun hh => a11 (by subst hh; exact commaSplit_nil)⟩

/-- C6: under the scalar invariants, batch construction fails with
`CardinalityMismatch` whenever the `tileposx`/`tileposy` split counts
differ, or a non-empty optional list splits to a different count; and an
empty optional list yields the per-tile defaults (`version -1`,
`imgSize 0`, `oldHash 0`, `hash 0`) for every tile of a successfully
constructed batch. -/
theorem claim_C6 (part width height : Int) (posXs posYs : Str) (tileWidth tileHeight : Int)
    (vers imgSizes : Str) (id : Int) (oldHashes hashes : Str)
    (hsc : 0 ≤ part ∧ 0 < width ∧ 0 < height ∧ 0 < tileWidth ∧ 0 < tileHeight) :
    (((commaSplit posXs).length ≠ (commaSplit posYs).length ∨
      (imgSizes ≠ [] ∧ (commaSplit posXs).length ≠ (commaSplit imgSizes).length) ∨
      (vers ≠ [] ∧ (commaSplit posXs).length ≠ (commaSplit vers).length) ∨
      (oldHashes ≠ [] ∧ (commaSplit posXs).length ≠ (commaSplit oldHashes).length) ∨
      (hashes ≠ [] ∧ (commaSplit posXs).length ≠ (commaSplit hashes).length)) →
      TileCombined.mk? part width height posXs posYs tileWidth tileHeight
        vers imgSizes id oldHashes hashes = .error .cardinalityMismatch) ∧
    (∀ tc, TileCombined.mk? part width height posXs posYs tileWidth tileHeight
        vers imgSizes id oldHashes hashes = .ok tc →
      (vers = [] → ∀ t ∈ tc.tiles, t.ver = -1) ∧
      (imgSizes = [] → ∀ t ∈ tc.tiles, t.imgSize = 0) ∧
      (oldHashes = [] → ∀ t ∈ tc.tiles, t.oldHash = 0) ∧
      (hashes = [] → ∀ t ∈ tc.tiles, t.hash = 0)) := by
  constructor
  · intro hcond
    simp only [TileCombined.mk?]
    rw [if_neg (by omega), if_pos hcond]
  · intro tc hok
    have hmem := (tileCombinedMkOk hok).2.2.2.2.2.2
    exact ⟨fun hh t ht => ((hmem t ht).2.2.2.2.2.2.2.2.1) hh,
      fun hh t ht => ((hmem t ht).2.2.2.2.2.2.2.1) hh,
      fun hh t ht => ((hmem t ht).2.2.2.2.2.2.2.2.2.1) hh,
      fun hh t ht => ((hmem t ht).2.2.2.2.2.2.2.2.2.2) hh⟩

/-- Witness for C6: three x-positions against two y-positions fail with
`CardinalityMismatch`; a batch with empty optional lists defaults every
tile's version to -1. -/
theorem claim_C6_witness :
    TileCombined.mk? 0 1 1 (strL "1,2,3") (strL "1,2") 1 1 [] [] (-1) [] [] =
      .error .cardinalityMismatch ∧
    (∀ tc, TileCombined.mk? 0 1 1 (strL "7") (strL "9") 1 1 [] [] (-1) [] [] = .ok tc →
      ∀ t ∈ tc.tiles, t.ver = -1) :=
  ⟨(claim_C6 0 1 1 (strL "1,2,3") (strL "1,2") 1 1 [] [] (-1) [] []
      (by decide)).1 (by decide),
   fun tc hok => ((claim_C6 0 1 1 (strL "7") (strL "9") 1 1 [] [] (-1) [] []
      (by decide)).2 tc hok).1 rfl⟩

/-- C9: on every construction path — the private constructor, `parse`, and
`create` — every contained tile's `part`, `width`, `height`, `tileWidth`
and `tileHeight` equal the batch's own shared scalars. -/
theorem claim_C9 :
    (∀ (part width height : Int) (posXs posYs : Str) (tileWidth tileHeight : Int)
       (vers imgSizes : Str) (id : Int) (oldHashes hashes : Str) (tc : TileCombined),
      TileCombined.mk? part width height posXs posYs tileWidth tileHeight
        vers imgSizes id oldHashes hashes = .ok tc →
      ∀ t ∈ tc.tiles, t.part = tc.part ∧ t.width = tc.width ∧ t.height = tc.height ∧
        t.tileWidth = tc.tileWidth ∧ t.tileHeight = tc.tileHeight) ∧
    (∀ (tokens : List Str) (tc : TileCombined), TileCombined.parseTokens tokens = .ok tc →
      ∀ t ∈ tc.tiles, t.part = tc.part ∧ t.width = tc.width ∧ t.height = tc.height ∧
        t.tileWidth = tc.tileWidth ∧ t.tileHeight = tc.tileHeight) ∧
    (∀ (tiles : List TileDesc) (tc : TileCombined), TileCombined.create tiles = .ok tc →
      ∀ t ∈ tc.tiles, t.part = tc.part ∧ t.width = tc.width ∧ t.height = tc.height ∧
        t.tileWidth = tc.tileWidth ∧ t.tileHeight = tc.tileHeight) := by
  have core : ∀ (part width height : Int) (posXs posYs : Str) (tileWidth tileHeight : Int)
      (vers imgSizes : Str) (id : Int) (oldHashes hashes : Str) (tc : TileCombined),
      TileCombined.mk? part width height posXs posYs tileWidth tileHeight
        vers imgSizes id oldHashes hashes = .ok tc →
      ∀ t ∈ tc.tiles, t.part = tc.part ∧ t.width = tc.width ∧ t.height = tc.height ∧
        t.tileWidth = tc.tileWidth ∧ t.tileHeight = tc.tileHeight := by
    intro part width height posXs posYs tileWidth tileHeight vers imgSizes id oldHashes
      hashes tc hok t ht
    obtain ⟨s1, s2, s3, s4, s5, s6, hmem⟩ := tileCombinedMkOk hok
    obtain ⟨a1, a2, a3, a4, a5, _⟩ := hmem t ht
    exact ⟨by rw [a1, s1], by rw [a2, s2], by rw [a3, s3], by rw [a4, s4], by rw [a5, s5]⟩
  refine ⟨core, fun tokens tc hok => ?_, fun tiles tc hok => ?_⟩
  · unfold TileCombined.parseTokens at hok
    exact core _ _ _ _ _ _ _ _ _ _ _ _ tc hok
  · unfold TileCombined.create at hok
    cases tiles with
    | nil => simp at hok
    | cons t0 rest => exact core _ _ _ _ _ _ _ _ _ _ _ _ tc hok

/-- Witness for C9 at a concrete two-tile construction. -/
theorem claim_C9_witness :
    ∀ t ∈ tcC9.tiles, t.part = tcC9.part ∧ t.width = tcC9.width ∧ t.height = tcC9.height ∧
      t.tileWidth = tcC9.tileWidth ∧ t.tileHeight = tcC9.tileHeight :=
  claim_C9.1 1 2 3 (strL "0,256") (strL "0,0") 4 5 [] [] 7 [] [] tcC9 (by decide)

/-- C10: on every construction path, every contained tile has
`broadcast = false` and `id` equal to the batch's own id; the batch
grammar has no per-tile broadcast or id field, so no construction can
produce a batch whose tiles differ in either. -/
theorem claim_C10 :
    (∀ (part width height : Int) (posXs posYs : Str) (tileWidth tileHeight : Int)
       (vers imgSizes : Str) (id : Int) (oldHashes hashes : Str) (tc : TileCombined),
      TileCombined.mk? part width height posXs posYs tileWidth tileHeight
        vers imgSizes id oldHashes hashes = .ok tc →
      ∀ t ∈ tc.tiles, t.broadcast = false ∧ t.id = tc.id) ∧
    (∀ (tokens : List Str) (tc : TileCombined), TileCombined.parseTokens tokens = .ok tc →
      ∀ t ∈ tc.tiles, t.broadcast = false ∧ t.id = tc.id) ∧
    (∀ (tiles : List TileDesc) (tc : TileCombined), TileCombined.create tiles = .ok tc →
      ∀ t ∈ tc.tiles, t.broadcast = false ∧ t.id = tc.id) := by
  have core : ∀ (part width height : Int) (posXs posYs : Str) (tileWidth tileHeight : Int)
      (vers imgSizes : Str) (id : Int) (oldHashes hashes : Str) (tc : TileCombined),
      TileCombined.mk? part width height posXs posYs tileWidth tileHeight
        vers imgSizes id oldHashes hashes = .ok tc →
      ∀ t ∈ tc.tiles, t.broadcast = false ∧ t.id = tc.id := by
    intro part width height posXs posYs tileWidth tileHeight vers imgSizes id oldHashes
      hashes tc hok t ht
    obtain ⟨_, _, _, _, _, s6, hmem⟩ := tileCombinedMkOk hok
    obtain ⟨_, _, _, _, _, a6, a7, _⟩ := hmem t ht
    exact ⟨a7, by rw [a6, s6]⟩
  refine ⟨core, fun tokens tc hok => ?_, fun tiles tc hok => ?_⟩
  · unfold TileCombined.parseTokens at hok
    exact core _ _ _ _ _ _ _ _ _ _ _ _ tc hok
  · unfold TileCombined.create at hok
    cases tiles with
    | nil => simp at hok
    | cons t0 rest => exact core _ _ _ _ _ _ _ _ _ _ _ _ tc hok

/-- Witness for C10 via the parse path at a concrete token list. -/
theorem claim_C10_witness :
    ∀ t ∈ tcC10.tiles, t.broadcast = false ∧ t.id = tcC10.id :=
  claim_C10.2.1
    [strL "part=0", strL "width=1", strL "height=1", strL "tileposx=0", strL "tileposy=0",
     strL "tilewidth=1", strL "tileheight=1"] tcC10 (by decide)

/-! ### The seek-back serialization of a batch -/

theorem OSS.write_nil (s : Str) : OSS.write ⟨[], 0⟩ s = ⟨s, s.length⟩ := by
  simp [OSS.write]

theorem OSS.write_end (buf s : Str) :
    OSS.write ⟨buf, buf.length⟩ s = ⟨buf ++ s, (buf ++ s).length⟩ := by
  simp [OSS.write, OSS.mk.injEq, List.take_length,
    List.drop_eq_nil_of_le (by omega : buf.length ≤ buf.length + s.length)]

theorem OSS.seek_write (buf s : Str) (hb : buf ≠ []) (hs : s ≠ []) :
    (OSS.seekBack1 ⟨buf, buf.length⟩).write s =
      ⟨buf.dropLast ++ s, (buf.dropLast ++ s).length⟩ := by
  have h1 : 1 ≤ buf.length := List.length_pos.mpr hb
  have h2 : 1 ≤ s.length := List.length_pos.mpr hs
  simp only [OSS.seekBack1, OSS.write, OSS.mk.injEq]
  refine ⟨?_, ?_⟩
  · rw [List.drop_eq_nil_of_le (by omega), ← List.dropLast_eq_take]
    simp
  · simp only [List.length_append, List.length_dropLast]

theorem OSS.out_full (buf : Str) : OSS.out ⟨buf, buf.length⟩ = buf := by
  simp [OSS.out]

theorem OSS.foldl_write_trailing {α : Type} (c : Char) (f : α → Str) (ts : List α) (buf : Str) :
    ts.foldl (fun (o : OSS) t => o.write (f t ++ [c])) ⟨buf, buf.length⟩ =
      ⟨buf ++ (ts.map f).foldr (fun v acc => v ++ (c :: acc)) [],
       (buf ++ (ts.map f).foldr (fun v acc => v ++ (c :: acc)) []).length⟩ := by
  induction ts generalizing buf with
  | nil => simp
  | cons t ts ih =>
    rw [List.foldl_cons, OSS.write_end, ih]
    simp [List.append_assoc]

theorem trailing_ne_nil (c : Char) (vals : List Str) (h : vals ≠ []) :
    vals.foldr (fun v acc => v ++ (c :: acc)) [] ≠ [] := by
  cases vals with
  | nil => exact absurd rfl h
  | cons v vs => simp

theorem dropLast_trailing (c : Char) (vals : List Str) (h : vals ≠ []) :
    (vals.foldr (fun v acc => v ++ (c :: acc)) []).dropLast = joinSep c vals := by
  induction vals with
  | nil => exact absurd rfl h
  | cons v vs ih =>
    cases vs with
    | nil => simp [joinSep, List.dropLast_concat]
    | cons v2 vs' =>
      have hne : (v2 :: vs').foldr (fun v acc => v ++ (c :: acc)) [] ≠ [] :=
        trailing_ne_nil c _ (by simp)
      have hstep : joinSep c (v :: v2 :: vs') = v ++ c :: joinSep c (v2 :: vs') := rfl
      rw [List.foldr_cons, hstep, List.dropLast_append_of_ne_nil v (by simp [hne]),
        ← ih (by simp)]
      congr 1
      cases hc : (v2 :: vs').foldr (fun v acc => v ++ (c :: acc)) [] with
      | nil => exact absurd hc hne
      | cons a l => simp [hc, List.dropLast_cons₂]

/-- One per-tile list block of `TileCombined::serialize`: a loop of
trailing-comma writes, then a `seekp(-1)` and the next field's write,
collapsing to a clean separator-join. -/
theorem OSS.block {α : Type} (c : Char) (f : α → Str) (ts : List α) (buf nxt : Str)
    (hts : ts ≠ []) (hnxt : nxt ≠ []) :
    ((ts.foldl (fun (o : OSS) t => o.write (f t ++ [c])) ⟨buf, buf.length⟩).seekBack1).write nxt =
      ⟨buf ++ joinSep c (ts.map f) ++ nxt, (buf ++ joinSep c (ts.map f) ++ nxt).length⟩ := by
  rw [OSS.foldl_write_trailing]
  have hmap : ts.map f ≠ [] := by simp [hts]
  have htr := trailing_ne_nil c (ts.map f) hmap
  rw [OSS.seek_write _ _ (by simp [htr]) hnxt]
  rw [List.dropLast_append_of_ne_nil _ htr, dropLast_trailing c _ hmap]

theorem left_ne_nil_append (a b : Str) (ha : a ≠ []) : a ++ b ≠ [] := by
  cases a with
  | nil => exact absurd rfl ha
  | cons c l => simp

theorem OSS.out_dropLast (buf : Str) : OSS.out ⟨buf, buf.length - 1⟩ = buf.dropLast := by
  simp [OSS.out, ← List.dropLast_eq_take]

theorem OSS.seek_out (buf : Str) : (OSS.seekBack1 ⟨buf, buf.length⟩).out = buf.dropLast := by
  simp only [OSS.seekBack1]
  exact OSS.out_dropLast buf

/-- The seek-back serialization of a nonempty batch collapses to clean
separator-joins: each list field holds exactly one element per tile, in
tile order, with commas strictly between elements and never trailing. -/
theorem serialize_clean (tc : TileCombined) (pfx : Str) (h : tc.tiles ≠ []) :
    tc.serialize pfx =
      pfx ++ strL " part=" ++ intStr tc.part ++ strL " width=" ++ intStr tc.width ++
      strL " height=" ++ intStr tc.height ++
      strL " tileposx=" ++ joinSep ',' (tc.tiles.map (fun t => intStr t.tilePosX)) ++
      strL " tileposy=" ++ joinSep ',' (tc.tiles.map (fun t => intStr t.tilePosY)) ++
      strL " imgsize=" ++ joinSep ',' (tc.tiles.map (fun t => intStr t.imgSize)) ++
      strL " tilewidth=" ++ intStr tc.tileWidth ++ strL " tileheight=" ++ intStr tc.tileHeight ++
      strL " ver=" ++ joinSep ',' (tc.tiles.map (fun t => intStr t.ver)) ++
      strL " oldhash=" ++ joinSep ',' (tc.tiles.map (fun t => natToChars t.oldHash)) ++
      strL " hash=" ++ joinSep ',' (tc.tiles.map (fun t => natToChars t.hash)) ++
      (if tc.id ≥ 0 then strL " id=" ++ intStr tc.id else []) := by
  have hmap : tc.tiles.map (fun t => natToChars t.hash) ≠ [] := by simp [h]
  have htr := trailing_ne_nil ',' _ hmap
  unfold TileCombined.serialize
  simp only [OSS.write_nil]
  rw [OSS.block ',' (fun t => intStr t.tilePosX) tc.tiles _ _ h (by decide)]
  rw [OSS.block ',' (fun t => intStr t.tilePosY) tc.tiles _ _ h (by decide)]
  rw [OSS.block ',' (fun t => intStr t.imgSize) tc.tiles _ _ h
    (left_ne_nil_append _ _ (left_ne_nil_append _ _
      (left_ne_nil_append _ _ (left_ne_nil_append _ _ (by decide)))))]
  rw [OSS.block ',' (fun t => intStr t.ver) tc.tiles _ _ h (by decide)]
  rw [OSS.block ',' (fun t => natToChars t.oldHash) tc.tiles _ _ h (by decide)]
  rw [OSS.foldl_write_trailing ',' (fun t => natToChars t.hash) tc.tiles _]
  by_cases hid : tc.id ≥ 0
  · rw [if_pos hid, if_pos hid,
      OSS.seek_write _ _ (by simp [htr]) (left_ne_nil_append _ _ (by decide)),
      OSS.out_full, List.dropLast_append_of_ne_nil _ htr, dropLast_trailing ',' _ hmap]
    simp [List.append_assoc]
  · rw [if_neg hid, if_neg hid, OSS.seek_out,
      List.dropLast_append_of_ne_nil _ htr, dropLast_trailing ',' _ hmap]
    simp [List.append_assoc]

/-- C7: for every batch with at least one tile, each comma-joined list
field of the serialized output (`tileposx, tileposy, imgsize, ver,
oldhash, hash`) holds exactly one element per tile, in tile order, joined
with the separator strictly between elements — never a trailing comma. -/
theorem claim_C7 (tc : TileCombined) (pfx : Str) (h : tc.tiles ≠ []) :
    tc.serialize pfx =
      pfx ++ strL " part=" ++ intStr tc.part ++ strL " width=" ++ intStr tc.width ++
      strL " height=" ++ intStr tc.height ++
      strL " tileposx=" ++ joinSep ',' (tc.tiles.map (fun t => intStr t.tilePosX)) ++
      strL " tileposy=" ++ joinSep ',' (tc.tiles.map (fun t => intStr t.tilePosY)) ++
      strL " imgsize=" ++ joinSep ',' (tc.tiles.map (fun t => intStr t.imgSize)) ++
      strL " tilewidth=" ++ intStr tc.tileWidth ++ strL " tileheight=" ++ intStr tc.tileHeight ++
      strL " ver=" ++ joinSep ',' (tc.tiles.map (fun t => intStr t.ver)) ++
      strL " oldhash=" ++ joinSep ',' (tc.tiles.map (fun t => natToChars t.oldHash)) ++
      strL " hash=" ++ joinSep ',' (tc.tiles.map (fun t => natToChars t.hash)) ++
      (if tc.id ≥ 0 then strL " id=" ++ intStr tc.id else []) :=
  serialize_clean tc pfx h

/-- Witness for C7 at a concrete two-tile batch. -/
theorem claim_C7_witness :
    tcC9.serialize [] =
      [] ++ strL " part=" ++ intStr tcC9.part ++ strL " width=" ++ intStr tcC9.width ++
      strL " height=" ++ intStr tcC9.height ++
      strL " tileposx=" ++ joinSep ',' (tcC9.tiles.map (fun t => intStr t.tilePosX)) ++
      strL " tileposy=" ++ joinSep ',' (tcC9.tiles.map (fun t => intStr t.tilePosY)) ++
      strL " imgsize=" ++ joinSep ',' (tcC9.tiles.map (fun t => intStr t.imgSize)) ++
      strL " tilewidth=" ++ intStr tcC9.tileWidth ++ strL " tileheight=" ++ intStr tcC9.tileHeight ++
      strL " ver=" ++ joinSep ',' (tcC9.tiles.map (fun t => intStr t.ver)) ++
      strL " oldhash=" ++ joinSep ',' (tcC9.tiles.map (fun t => natToChars t.oldHash)) ++
      strL " hash=" ++ joinSep ',' (tcC9.tiles.map (fun t => natToChars t.hash)) ++
      (if tcC9.id ≥ 0 then strL " id=" ++ intStr tcC9.id else []) :=
  claim_C7 tcC9 [] (by decide)

/-! ### Evaluating `create` -/

theorem toIntE_intStr (i : Int) : toIntE (intStr i) = .ok i := by
  simp [toIntE, parseInt_intStr]

theorem toNatE_natToChars (n : Nat) : toNatE (natToChars n) = .ok n := by
  simp [toNatE, charsToNat_natToChars]

theorem intStr_isEmpty (i : Int) : (intStr i).isEmpty = false := by
  cases h : intStr i with
  | nil => exact absurd h (intStr_ne_nil i)
  | cons c l => rfl

theorem map_intStr_props {α : Type} (g : α → Int) (ts : List α) :
    (∀ l ∈ ts.map (fun t => intStr (g t)), l ≠ []) ∧
    (∀ l ∈ ts.map (fun t => intStr (g t)), ∀ x ∈ l, x ≠ ',') ∧
    (∀ l ∈ ts.map (fun t => intStr (g t)), ∀ x ∈ l, x.isWhitespace = false) := by
  refine ⟨?_, ?_, ?_⟩ <;> intro l hl <;> obtain ⟨t, _, rfl⟩ := List.mem_map.mp hl
  · exact intStr_ne_nil _
  · intro x hx
    exact (mem_intStr_not_space _ x hx).2.1
  · intro x hx
    exact (mem_intStr_not_space _ x hx).2.2.2

theorem map_natToChars_props {α : Type} (g : α → Nat) (ts : List α) :
    (∀ l ∈ ts.map (fun t => natToChars (g t)), l ≠ []) ∧
    (∀ l ∈ ts.map (fun t => natToChars (g t)), ∀ x ∈ l, x ≠ ',') ∧
    (∀ l ∈ ts.map (fun t => natToChars (g t)), ∀ x ∈ l, x.isWhitespace = false) := by
  refine ⟨?_, ?_, ?_⟩ <;> intro l hl <;> obtain ⟨t, _, rfl⟩ := List.mem_map.mp hl
  · exact natToChars_ne_nil _
  · intro x hx
    exact (natToChars_not_space _ x hx).2.1
  · intro x hx
    exact (natToChars_not_space _ x hx).2.2.2

theorem foldl_append_trailing {α : Type} (f : α → Str) (c : Char) (ts : List α) (a : Str) :
    ts.foldl (fun acc t => acc ++ f t ++ [c]) a =
      a ++ (ts.map f).foldr (fun v acc => v ++ (c :: acc)) [] := by
  induction ts generalizing a with
  | nil => simp
  | cons t ts ih =>
    rw [List.foldl_cons, ih]
    simp [List.append_assoc]

/-- Evaluation of the constructor loop when every list is the rendering of
the corresponding tile field and the `imgsize` list is absent. -/
theorem buildTiles_eval_imgEmpty (part width height tw th id : Int)
    (hsc : 0 ≤ part ∧ 0 < width ∧ 0 < height ∧ 0 < tw ∧ 0 < th)
    (ts : List TileDesc) (hts : ∀ t ∈ ts, 0 ≤ t.tilePosX ∧ 0 ≤ t.tilePosY) :
    buildTiles part width height tw th id
      (ts.map (fun t => intStr t.tilePosX)) (ts.map (fun t => intStr t.tilePosY))
      [] (ts.map (fun t => intStr t.ver))
      (ts.map (fun t => natToChars t.oldHash)) (ts.map (fun t => natToChars t.hash)) =
    .ok (ts.map (fun t => ⟨part, width, height, t.tilePosX, t.tilePosY, tw, th, t.ver,
      0, id, false, t.oldHash, t.hash⟩)) := by
  induction ts with
  | nil => rfl
  | cons t ts ih =>
    have hthead := hts t (List.mem_cons_self t ts)
    have htail := fun x hx => hts x (List.mem_cons_of_mem t hx)
    have hmk : TileDesc.mk? part width height t.tilePosX t.tilePosY tw th t.ver 0 id false =
        .ok ⟨part, width, height, t.tilePosX, t.tilePosY, tw, th, t.ver, 0, id, false, 0, 0⟩ := by
      unfold TileDesc.mk?
      rw [if_neg (by omega)]
    simp only [List.map_cons, buildTiles, List.headD_cons, List.tail_cons, toIntE_intStr,
      optImgE, optVerE, optNatE, List.isEmpty_nil, List.isEmpty_cons, intStr_isEmpty,
      toNatE_natToChars, if_true, if_false, ite_true, ite_false, hmk, ih htail,
      Bind.bind, Except.bind, pure, Except.pure]
    simp [hmk, List.tail_nil, ih htail]

/-- Evaluation of the constructor loop when every list, `imgsize`
included, is the rendering of the corresponding tile field. -/
theorem buildTiles_eval_imgMap (part width height tw th id : Int)
    (hsc : 0 ≤ part ∧ 0 < width ∧ 0 < height ∧ 0 < tw ∧ 0 < th)
    (ts : List TileDesc)
    (hts : ∀ t ∈ ts, 0 ≤ t.tilePosX ∧ 0 ≤ t.tilePosY ∧ 0 ≤ t.imgSize) :
    buildTiles part width height tw th id
      (ts.map (fun t => intStr t.tilePosX)) (ts.map (fun t => intStr t.tilePosY))
      (ts.map (fun t => intStr t.imgSize)) (ts.map (fun t => intStr t.ver))
      (ts.map (fun t => natToChars t.oldHash)) (ts.map (fun t => natToChars t.hash)) =
    .ok (ts.map (fun t => ⟨part, width, height, t.tilePosX, t.tilePosY, tw, th, t.ver,
      t.imgSize, id, false, t.oldHash, t.hash⟩)) := by
  induction ts with
  | nil => rfl
  | cons t ts ih =>
    have hthead := hts t (List.mem_cons_self t ts)
    have htail := fun x hx => hts x (List.mem_cons_of_mem t hx)
    have hmk : TileDesc.mk? part width height t.tilePosX t.tilePosY tw th t.ver t.imgSize
        id false =
        .ok ⟨part, width, height, t.tilePosX, t.tilePosY, tw, th, t.ver, t.imgSize, id,
          false, 0, 0⟩ := by
      unfold TileDesc.mk?
      rw [if_neg (by omega)]
    simp only [List.map_cons, buildTiles, List.headD_cons, List.tail_cons, toIntE_intStr,
      optImgE, optVerE, optNatE, List.isEmpty_nil, List.isEmpty_cons, intStr_isEmpty,
      toNatE_natToChars, if_true, if_false, ite_true, ite_false, hmk, ih htail,
      Bind.bind, Except.bind, pure, Except.pure]
    simp [hmk, ih htail]

/-- Evaluation of `TileCombined::create` on a nonempty list of valid
tiles. -/
theorem create_eq (t0 : TileDesc) (rest : List TileDesc)
    (hv : ∀ t ∈ t0 :: rest, t.Valid) :
    TileCombined.create (t0 :: rest) =
      .ok ⟨(t0 :: rest).map (normTile t0), t0.part, t0.width, t0.height,
        t0.tileWidth, t0.tileHeight, -1⟩ := by
  have hv0 := hv t0 (List.mem_cons_self t0 rest)
  obtain ⟨h1, h2, h3, h4, h5, h6, h7, h8⟩ := hv0
  simp only [TileCombined.create]
  rw [foldl_append_trailing (fun t => intStr t.tilePosX) ',' (t0 :: rest) []]
  rw [foldl_append_trailing (fun t => intStr t.tilePosY) ',' (t0 :: rest) []]
  rw [foldl_append_trailing (fun t => natToChars t.oldHash) ',' (t0 :: rest) []]
  rw [foldl_append_trailing (fun t => natToChars t.hash) ',' (t0 :: rest) []]
  rw [show (⟨[], 0⟩ : OSS) = ⟨[], ([] : Str).length⟩ from rfl,
    OSS.foldl_write_trailing ',' (fun t => intStr t.ver) (t0 :: rest) []]
  simp only [OSS.seekBack1, List.nil_append]
  unfold TileCombined.mk?
  rw [if_neg (by omega)]
  obtain ⟨hx1, hx2, hx3⟩ := map_intStr_props (fun t => t.tilePosX) (t0 :: rest)
  obtain ⟨hy1, hy2, hy3⟩ := map_intStr_props (fun t => t.tilePosY) (t0 :: rest)
  obtain ⟨hv1, hv2, hv3⟩ := map_intStr_props (fun t => t.ver) (t0 :: rest)
  obtain ⟨ho1, ho2, ho3⟩ := map_natToChars_props (fun t => t.oldHash) (t0 :: rest)
  obtain ⟨hh1, hh2, hh3⟩ := map_natToChars_props (fun t => t.hash) (t0 :: rest)
  rw [commaSplit_concat_trailing _ hx1 hx2 hx3, commaSplit_concat_trailing _ hy1 hy2 hy3,
    commaSplit_concat_trailing _ hv1 hv2 hv3, commaSplit_concat_trailing _ ho1 ho2 ho3,
    commaSplit_concat_trailing _ hh1 hh2 hh3, commaSplit_nil]
  rw [if_neg (by simp [List.length_map])]
  rw [buildTiles_eval_imgEmpty t0.part t0.width t0.height t0.tileWidth t0.tileHeight (-1)
    (by omega) (t0 :: rest)
    (fun t ht => by obtain ⟨_, _, _, c4, c5, _⟩ := hv t ht; exact ⟨c4, c5⟩)]
  rfl

/-! ### Parsing a serialized batch -/

theorem mem_joinSep (c : Char) (ls : List Str) (x : Char) (hx : x ∈ joinSep c ls) :
    x = c ∨ ∃ l ∈ ls, x ∈ l := by
  induction ls with
  | nil => simp [joinSep] at hx
  | cons l ls ih =>
    cases ls with
    | nil =>
      right
      exact ⟨l, by simp, by simpa [joinSep] using hx⟩
    | cons l2 ls2 =>
      rw [show joinSep c (l :: l2 :: ls2) = l ++ c :: joinSep c (l2 :: ls2) from rfl] at hx
      rcases List.mem_append.mp hx with h | h
      · right
        exact ⟨l, by simp, h⟩
      · rcases List.mem_cons.mp h with rfl | h
        · left
          rfl
        · rcases ih h with h | ⟨l', hl', hx'⟩
          · left
            exact h
          · right
            exact ⟨l', List.mem_cons_of_mem l hl', hx'⟩

theorem comb_serialize_tokens (tc : TileCombined) (hne : tc.tiles ≠ []) (hid : tc.id = -1) :
    tc.serialize [] = (combTokens tc).foldr (fun t acc => ' ' :: (t ++ acc)) [] := by
  rw [serialize_clean tc [] hne, hid]
  rw [if_neg (by decide)]
  simp only [combTokens, keyEq_part, keyEq_width, keyEq_height, keyEq_tileposx, keyEq_tileposy,
    keyEq_imgsize, keyEq_tilewidth, keyEq_tileheight, keyEq_ver, keyEq_oldhash, keyEq_hash,
    List.foldr_cons, List.foldr_nil, List.append_assoc, List.cons_append, List.singleton_append,
    List.nil_append, List.append_nil]

theorem combTokens_nonempty (tc : TileCombined) : ∀ t ∈ combTokens tc, t ≠ [] := by
  intro t ht
  simp only [combTokens, List.mem_cons, List.not_mem_nil, or_false] at ht
  rcases ht with rfl | rfl | rfl | rfl | rfl | rfl | rfl | rfl | rfl | rfl | rfl <;> simp

theorem joinSep_space_free {α : Type} (f : α → Str) (ts : List α)
    (hf : ∀ l ∈ ts.map f, ∀ x ∈ l, x ≠ ' ') :
    ∀ x ∈ joinSep ',' (ts.map f), x ≠ ' ' := by
  intro x hx
  rcases mem_joinSep ',' _ x hx with rfl | ⟨l, hl, hxl⟩
  · decide
  · exact hf l hl x hxl

theorem combTokens_spacefree (tc : TileCombined) : ∀ t ∈ combTokens tc, ∀ x ∈ t, x ≠ ' ' := by
  intro t ht
  have hint : ∀ i : Int, ∀ x ∈ intStr i, x ≠ ' ' := fun i x hx => (mem_intStr_not_space i x hx).1
  have hjx : ∀ (g : TileDesc → Int), ∀ x ∈ joinSep ',' (tc.tiles.map (fun t => intStr (g t))),
      x ≠ ' ' := by
    intro g
    exact joinSep_space_free _ _ (by
      intro l hl x hx
      obtain ⟨u, _, rfl⟩ := List.mem_map.mp hl
      exact (mem_intStr_not_space _ x hx).1)
  have hjn : ∀ (g : TileDesc → Nat), ∀ x ∈ joinSep ',' (tc.tiles.map (fun t => natToChars (g t))),
      x ≠ ' ' := by
    intro g
    exact joinSep_space_free _ _ (by
      intro l hl x hx
      obtain ⟨u, _, rfl⟩ := List.mem_map.mp hl
      exact (natToChars_not_space _ x hx).1)
  simp only [combTokens, List.mem_cons, List.not_mem_nil, or_false] at ht
  rcases ht with rfl | rfl | rfl | rfl | rfl | rfl | rfl | rfl | rfl | rfl | rfl <;>
    first
    | exact token_space_free _ _ (by decide) (hint _)
    | exact token_space_free _ _ (by decide) (hjx _)
    | exact token_space_free _ _ (by decide) (hjn _)

theorem combStep_posx (st : CombParseSt) (v : Str) :
    combStep st (strL "tileposx" ++ '=' :: v) = { st with posX := v } := by
  simp +decide [combStep, parseNameValuePair_build (strL "tileposx") v (by decide)]

theorem combStep_posy (st : CombParseSt) (v : Str) :
    combStep st (strL "tileposy" ++ '=' :: v) = { st with posY := v } := by
  simp +decide [combStep, parseNameValuePair_build (strL "tileposy") v (by decide)]

theorem combStep_imgsize (st : CombParseSt) (v : Str) :
    combStep st (strL "imgsize" ++ '=' :: v) = { st with imgs := v } := by
  simp +decide [combStep, parseNameValuePair_build (strL "imgsize") v (by decide)]

theorem combStep_ver (st : CombParseSt) (v : Str) :
    combStep st (strL "ver" ++ '=' :: v) = { st with vers := v } := by
  simp +decide [combStep, parseNameValuePair_build (strL "ver") v (by decide)]

theorem combStep_oldhash (st : CombParseSt) (v : Str) :
    combStep st (strL "oldhash" ++ '=' :: v) = { st with oldhs := v } := by
  simp +decide [combStep, parseNameValuePair_build (strL "oldhash") v (by decide)]

theorem combStep_hash (st : CombParseSt) (v : Str) :
    combStep st (strL "hash" ++ '=' :: v) = { st with hs := v } := by
  simp +decide [combStep, parseNameValuePair_build (strL "hash") v (by decide)]

theorem combStep_pair (st : CombParseSt) (name : Str) (v : Int)
    (hname : ∀ x ∈ name, x ≠ '=')
    (h1 : name ≠ strL "tileposx") (h2 : name ≠ strL "tileposy") (h3 : name ≠ strL "imgsize")
    (h4 : name ≠ strL "ver") (h5 : name ≠ strL "oldhash") (h6 : name ≠ strL "hash") :
    combStep st (name ++ '=' :: intStr v) = { st with pairs := (name, v) :: st.pairs } := by
  simp [combStep, parseNameValuePair_build name _ hname, h1, h2, h3, h4, h5, h6, parseInt_intStr]

/-- Parsing the serialization of a batch whose tiles all carry the batch
scalars (with absent id) returns the batch itself. -/
theorem parse_serialize_comb (tc : TileCombined) (hne : tc.tiles ≠ [])
    (hsc : 0 ≤ tc.part ∧ 0 < tc.width ∧ 0 < tc.height ∧ 0 < tc.tileWidth ∧ 0 < tc.tileHeight)
    (hid : tc.id = -1)
    (ht : ∀ t ∈ tc.tiles, 0 ≤ t.tilePosX ∧ 0 ≤ t.tilePosY ∧ 0 ≤ t.imgSize ∧
      t.part = tc.part ∧ t.width = tc.width ∧ t.height = tc.height ∧
      t.tileWidth = tc.tileWidth ∧ t.tileHeight = tc.tileHeight ∧ t.id = tc.id ∧
      t.broadcast = false) :
    TileCombined.parseTokens (tokenize (tc.serialize [])) = .ok tc := by
  obtain ⟨tiles, part, width, height, tw, th, id⟩ := tc
  dsimp only at hne hsc hid ht ⊢
  subst hid
  rw [comb_serialize_tokens _ hne rfl]
  rw [tokenize_spaced _ (combTokens_nonempty _) (combTokens_spacefree _)]
  unfold TileCombined.parseTokens combTokens combInitSt
  simp +decide only [List.foldl_cons, List.foldl_nil,
    combStep_pair, combStep_posx, combStep_posy, combStep_imgsize, combStep_ver,
    combStep_oldhash, combStep_hash, lookupPairs, if_true, if_false, ite_true, ite_false]
  unfold TileCombined.mk?
  rw [if_neg (by omega)]
  obtain ⟨hx1, hx2, hx3⟩ := map_intStr_props (fun t => t.tilePosX) tiles
  obtain ⟨hy1, hy2, hy3⟩ := map_intStr_props (fun t => t.tilePosY) tiles
  obtain ⟨hi1, hi2, hi3⟩ := map_intStr_props (fun t => t.imgSize) tiles
  obtain ⟨hv1, hv2, hv3⟩ := map_intStr_props (fun t => t.ver) tiles
  obtain ⟨ho1, ho2, ho3⟩ := map_natToChars_props (fun t => t.oldHash) tiles
  obtain ⟨hh1, hh2, hh3⟩ := map_natToChars_props (fun t => t.hash) tiles
  rw [commaSplit_joinSep _ hx1 hx2 hx3, commaSplit_joinSep _ hy1 hy2 hy3,
    commaSplit_joinSep _ hi1 hi2 hi3, commaSplit_joinSep _ hv1 hv2 hv3,
    commaSplit_joinSep _ ho1 ho2 ho3, commaSplit_joinSep _ hh1 hh2 hh3]
  rw [if_neg (by simp [List.length_map])]
  rw [buildTiles_eval_imgMap part width height tw th (-1) (by omega) tiles
    (fun t htm => by obtain ⟨c1, c2, c3, _⟩ := ht t htm; exact ⟨c1, c2, c3⟩)]
  have hmapid : tiles.map (fun t => (⟨part, width, height, t.tilePosX, t.tilePosY, tw, th,
      t.ver, t.imgSize, -1, false, t.oldHash, t.hash⟩ : TileDesc)) = tiles := by
    have hcg : ∀ t ∈ tiles, (⟨part, width, height, t.tilePosX, t.tilePosY, tw, th,
        t.ver, t.imgSize, -1, false, t.oldHash, t.hash⟩ : TileDesc) = t := by
      intro t htm
      obtain ⟨_, _, _, c4, c5, c6, c7, c8, c9, c10⟩ := ht t htm
      cases t
      simp only at c4 c5 c6 c7 c8 c9 c10
      simp [TileDesc.mk.injEq, c4, c5, c6, c7, c8, c9, c10]
    calc tiles.map (fun t => (⟨part, width, height, t.tilePosX, t.tilePosY, tw, th,
          t.ver, t.imgSize, -1, false, t.oldHash, t.hash⟩ : TileDesc))
        = tiles.map (fun t => t) := List.map_congr_left hcg
      _ = tiles := List.map_id' tiles
  rw [hmapid]
  rfl

theorem forall2_map_self {α β : Type} (R : α → β → Prop) (f : α → β) (l : List α)
    (h : ∀ x ∈ l, R x (f x)) : List.Forall₂ R l (l.map f) := by
  induction l with
  | nil => simp
  | cons a l ih =>
    exact List.Forall₂.cons (h a (List.mem_cons_self a l))
      (ih fun x hx => h x (List.mem_cons_of_mem a hx))

/-- Counterexample to C8 as stated: the single valid tile `c8Tile`
(geometric homogeneity is trivial) round-trips through
`create`/`serialize`/`parse` into a tile with `id = -1 ≠ 5`, so the result
is not equal to the input on identity fields. -/
theorem claim_C8_counterexample :
    c8Tile.Valid ∧
    ((TileCombined.create [c8Tile]).bind
        (fun b => TileCombined.parseTokens (tokenize (b.serialize [])))).map
      (fun b2 => b2.tiles.map (fun t => t.eqId c8Tile)) = .ok [false] :=
  ⟨by decide, by decide⟩

/-- C8 (amended): for every nonempty sequence of valid TileDescriptors
sharing geometry, `create` followed by parsing the batch's serialization
reproduces the created batch exactly: one output tile per input tile, in
order, equal to the corresponding input on every identity field except
`id` and `broadcast` — which `create` forces to `-1` and `false` — and
preserving that input's `version`, `oldHash` and `hash`. -/
theorem claim_C8 (t0 : TileDesc) (rest : List TileDesc)
    (hv : ∀ t ∈ t0 :: rest, t.Valid)
    (hg : ∀ t ∈ t0 :: rest, t.part = t0.part ∧ t.width = t0.width ∧ t.height = t0.height ∧
      t.tileWidth = t0.tileWidth ∧ t.tileHeight = t0.tileHeight) :
    ∃ b, TileCombined.create (t0 :: rest) = .ok b ∧
      TileCombined.parseTokens (tokenize (b.serialize [])) = .ok b ∧
      b.tiles.length = (t0 :: rest).length ∧
      List.Forall₂ (fun t u =>
        u.part = t.part ∧ u.width = t.width ∧ u.height = t.height ∧
        u.tilePosX = t.tilePosX ∧ u.tilePosY = t.tilePosY ∧
        u.tileWidth = t.tileWidth ∧ u.tileHeight = t.tileHeight ∧
        u.ver = t.ver ∧ u.oldHash = t.oldHash ∧ u.hash = t.hash ∧
        u.id = -1 ∧ u.broadcast = false) (t0 :: rest) b.tiles := by
  obtain ⟨v1, v2, v3, v4, v5, v6, v7, v8⟩ := hv t0 (List.mem_cons_self t0 rest)
  refine ⟨_, create_eq t0 rest hv, ?_, ?_, ?_⟩
  · apply parse_serialize_comb
    · simp
    · exact ⟨v1, v2, v3, v6, v7⟩
    · rfl
    · intro t htm
      obtain ⟨u, hu, rfl⟩ := List.mem_map.mp htm
      obtain ⟨u1, u2, u3, u4, u5, u6, u7, u8⟩ := hv u hu
      exact ⟨u4, u5, le_refl 0, rfl, rfl, rfl, rfl, rfl, rfl, rfl⟩
  · simp
  · dsimp only
    apply forall2_map_self
    intro t htm
    obtain ⟨g1, g2, g3, g4, g5⟩ := hg t htm
    exact ⟨g1.symm, g2.symm, g3.symm, rfl, rfl, g4.symm, g5.symm, rfl, rfl, rfl, rfl, rfl⟩

/-- Witness for C8 (amended) at a concrete one-tile sequence. -/
theorem claim_C8_witness :
    ∃ b, TileCombined.create [w8Tile] = .ok b ∧
      TileCombined.parseTokens (tokenize (b.serialize [])) = .ok b ∧
      b.tiles.length = [w8Tile].length ∧
      List.Forall₂ (fun t u =>
        u.part = t.part ∧ u.width = t.width ∧ u.height = t.height ∧
        u.tilePosX = t.tilePosX ∧ u.tilePosY = t.tilePosY ∧
        u.tileWidth = t.tileWidth ∧ u.tileHeight = t.tileHeight ∧
        u.ver = t.ver ∧ u.oldHash = t.oldHash ∧ u.hash = t.hash ∧
        u.id = -1 ∧ u.broadcast = false) [w8Tile] b.tiles :=
  claim_C8 w8Tile [] (by decide) (by decide)
